import Mathlib

/-!
Verification of the incremental build engine of `expose.py` (a static photo
journal generator).  The definitions below are a shallow embedding of
`src/expose.py`, the latest and authoritative variant of the code: paths and
file contents are lists of characters, the filesystem is an association list
from paths to contents plus a list of created directories, and the external
collaborators (SHA-256 hashing, ImageMagick resize, FFmpeg encode / poster
extraction, ffprobe dimension probe) are abstract function fields of an `Ext`
record, with `Option` results modelling success/failure of the external call.
-/

namespace Expose

/-- A filesystem path (and also a file content), as a list of characters. -/
abbrev Path := List Char

/-- File contents are character lists as well (hash digests are hex text). -/
abbrev Content := List Char

/-- Embeds Python's `os.path.basename`: the characters after the last `/`. -/
def basenameCh (p : Path) : Path :=
  (p.reverse.takeWhile (fun c => !(c == '/'))).reverse

/-- Drops trailing `/` characters, used by `os.path.split`. -/
def stripTrailingSlashes (l : Path) : Path :=
  (l.reverse.dropWhile (fun c => c == '/')).reverse

/-- Embeds Python's `os.path.split`: split at the last `/`, stripping the
trailing slashes of the head unless the head is all slashes. -/
def splitP (p : Path) : Path × Path :=
  let tail := basenameCh p
  let head := p.take (p.length - tail.length)
  (if head.all (fun c => c == '/') then head else stripTrailingSlashes head, tail)

/-- Embeds Python's `os.path.join` for two components. -/
def joinP (a b : Path) : Path :=
  if b.head? = some '/' then b
  else if a = [] then b
  else if a.getLast? = some '/' then a ++ b
  else a ++ '/' :: b

/-- Embeds Python's `os.path.splitext`: the extension starts at the last dot
of the basename, unless the basename consists only of leading dots there. -/
def splitextP (p : Path) : Path × Path :=
  let base := basenameCh p
  let afterDot := base.reverse.takeWhile (fun c => !(c == '.'))
  if afterDot.length = base.length then (p, [])
  else
    let extLen := afterDot.length + 1
    let rootBase := base.take (base.length - extLen)
    if rootBase.any (fun c => !(c == '.')) then
      (p.take (p.length - extLen), p.drop (p.length - extLen))
    else (p, [])

/-- Embeds Python's `str.split()` (no argument): the maximal nonempty runs of
non-whitespace characters, in order.  The extra `Nat` is fuel making the
recursion structural (each run consumes at least one character, so any fuel
of at least the list's length is enough; `wsplit` passes the length). -/
def wsplitF : Nat → Path → List Path
  | 0, _ => []
  | _ + 1, [] => []
  | fuel + 1, c :: t =>
    if c.isWhitespace then wsplitF fuel t
    else (c :: t.takeWhile (fun d => !d.isWhitespace)) ::
      wsplitF fuel (t.dropWhile (fun d => !d.isWhitespace))

/-- Embeds Python's `str.split()` (no argument). -/
def wsplit (l : Path) : List Path := wsplitF l.length l

/-- Splitting on whitespace keeping empty pieces: the pieces between
consecutive whitespace characters.  This is the spec-side notion used to state
that `sanitary_name` collapses whitespace runs to single hyphens. -/
def splitWS : Path → List Path
  | [] => [[]]
  | c :: t =>
    if c.isWhitespace then [] :: splitWS t
    else
      match splitWS t with
      | [] => [[c]]
      | w :: rs => (c :: w) :: rs

/-- The video output formats of `VIDEO_FMT_COMMANDS` in `expose.py`. -/
inductive VidFmt where
  | h264 : VidFmt
  | webm : VidFmt
deriving DecidableEq

/-- Embeds `VIDEO_FMT_EXTS` from `expose.py`. -/
def VIDEO_FMT_EXTS : VidFmt → Path
  | .h264 => ('.' :: ("mp4").toList)
  | .webm => ('.' :: ("webm").toList)

/-- Embeds the `Config` named tuple of `expose.py`.  The template and glob
pattern fields are omitted (site rendering and source discovery are outside
the verified core; source lists are passed explicitly).  The field
`VIDEO_VBR_MAX` embeds the VBR ceiling multiplier field of the source
(there called the max-ratio). -/
structure Config where
  SRC_DIR : Path
  DST_DIR : Path
  RESOLUTIONS : List Nat
  VIDEO_FORMATS : List VidFmt
  VIDEO_BITRATES : List Nat
  VIDEO_VBR_MAX : Nat
deriving DecidableEq

/-- Embeds the `ImageJob` named tuple of `expose.py`. -/
structure ImageJob where
  src : Path
  dst : Path
  size : Nat
  dry_run : Bool
deriving DecidableEq

/-- Embeds the `VideoJob` named tuple of `expose.py`. -/
structure VideoJob where
  cfg : Config
  src : Path
  dst : Path
  format : VidFmt
  resolution : Nat
  bitrate : Nat
  dry_run : Bool
deriving DecidableEq

/-- A job of either kind; `file_targets` returns image jobs or video jobs
depending on its `is_video` flag. -/
inductive MediaJob where
  | img : ImageJob → MediaJob
  | vid : VideoJob → MediaJob
deriving DecidableEq

/-- Destination path of a job. -/
def job_dst : MediaJob → Path
  | .img j => j.dst
  | .vid j => j.dst

/-- Source path of a job. -/
def job_src : MediaJob → Path
  | .img j => j.src
  | .vid j => j.src

/-- Dry-run flag of a job. -/
def job_dry : MediaJob → Bool
  | .img j => j.dry_run
  | .vid j => j.dry_run

/-- The filesystem: an association list from paths to contents (later writes
shadow earlier ones) and the list of directories created with `makedirs`. -/
structure FS where
  files : List (Path × Content)
  dirs : List Path
deriving DecidableEq

/-- First-match lookup in an association list. -/
def lookupA : List (Path × Content) → Path → Option Content
  | [], _ => none
  | (q, c) :: t, p => if q = p then some c else lookupA t p

/-- Reads a file's content, `none` when the file does not exist. -/
def fsRead (fs : FS) (p : Path) : Option Content :=
  lookupA fs.files p

/-- Writes (creates or overwrites) a file. -/
def fsWrite (fs : FS) (p : Path) (c : Content) : FS :=
  ⟨(p, c) :: fs.files, fs.dirs⟩

/-- Embeds Python's `os.path.isfile`. -/
def fsIsFile (fs : FS) (p : Path) : Bool :=
  (fsRead fs p).isSome

/-- Records a `makedirs` call (create-if-missing; parents implied). -/
def fsMkdir (fs : FS) (d : Path) : FS :=
  ⟨fs.files, d :: fs.dirs⟩

/-- The external collaborators of the core, as abstract functions:
`hashFn` is the SHA-256 hex digest of a content; `resize` is the ImageMagick
bound-resize of a source content to a target size; `encode` is the FFmpeg
encode of a source content at (format, resolution, bitrate, max bitrate);
`poster` extracts one frame from an encoded video content; `dims` is the
ffprobe (width, height) probe of a source path.  An `Option` result of `none`
models a non-zero exit status of the external command. -/
structure Ext where
  hashFn : Content → Content
  resize : Content → Nat → Option Content
  encode : Content → VidFmt → Nat → Nat → Nat → Option Content
  poster : Content → Option Content
  dims : Path → Nat × Nat

/-- Embeds `hash_file` from `expose.py`: the digest of the file's content,
`none` when the file cannot be opened. -/
def hash_file (ext : Ext) (fs : FS) (src : Path) : Option Content :=
  (fsRead fs src).map ext.hashFn

/-- Embeds `hash_path_for_dst` from `expose.py`: the hidden sidecar path
`path/.name.src.sha256` beside the destination file. -/
def hash_path_for_dst (dst : Path) : Path :=
  let pn := splitP dst
  joinP pn.1 ('.' :: (pn.2 ++ (".src.sha256").toList))

/-- Embeds `write_hash` from `expose.py`: writes the fresh digest of the
source file to the sidecar of the destination; fails if the source file is
unreadable. -/
def write_hash (ext : Ext) (fs : FS) (src dst : Path) : Option FS :=
  (fsRead fs src).map (fun c => fsWrite fs (hash_path_for_dst dst) (ext.hashFn c))

/-- Embeds `is_dirty` from `expose.py`: `true` when no sidecar record exists,
otherwise whether the stored digest differs from the fresh digest of the
source.  (When the sidecar exists but the source file is missing, the Python
function raises; every theorem about states with a sidecar therefore assumes
the source is readable.) -/
def is_dirty (ext : Ext) (fs : FS) (src dst : Path) : Bool :=
  match fsRead fs (hash_path_for_dst dst) with
  | none => true
  | some h => if hash_file ext fs src = some h then false else true

/-- Embeds the job-inclusion condition `(not isfile(dst)) or is_dirty(src,
dst)` at the two call sites inside `file_targets`. -/
def needs_work (ext : Ext) (fs : FS) (src dst : Path) : Bool :=
  !(fsIsFile fs dst) || is_dirty ext fs src dst

/-- The job-inclusion condition of a job, reading its own fields. -/
def needsJ (ext : Ext) (fs : FS) (j : MediaJob) : Bool :=
  needs_work ext fs (job_src j) (job_dst j)

/-- Embeds `sanitary_name_and_ext` from `expose.py`: basename, extension,
with whitespace in the name replaced by hyphens via `'-'.join(name.split())`. -/
def sanitary_name_and_ext (src : Path) : Path × Path :=
  let ne := splitextP (basenameCh src)
  (List.intercalate ['-'] (wsplit ne.1), ne.2)

/-- Embeds `sanitary_name` from `expose.py`. -/
def sanitary_name (src : Path) : Path :=
  (sanitary_name_and_ext src).1

/-- Embeds `target_dir` from `expose.py`: `join(cfg.DST_DIR, sanitary_name(src))`. -/
def target_dir (cfg : Config) (src : Path) : Path :=
  joinP cfg.DST_DIR (sanitary_name src)

/-- The destination path built inside `file_targets`:
`join(cfg.DST_DIR, target_dir(cfg, src), full)`. -/
def artifact_dst (cfg : Config) (src full : Path) : Path :=
  joinP (joinP cfg.DST_DIR (target_dir cfg src)) full

/-- The artifact file name `name + '-' + str(resolution) + ext` built inside
`file_targets`. -/
def artifact_full (name : Path) (resolution : Nat) (ext0 : Path) : Path :=
  name ++ '-' :: (Nat.toDigits 10 resolution ++ ext0)

/-- The poster image path derived in `convert_video`:
`splitext(job.dst)[0] + '.jpg'`. -/
def poster_path (dst : Path) : Path :=
  (splitextP dst).1 ++ ('.' :: ("jpg").toList)

/-- Embeds `mkdir_for_dst` from `expose.py`; the flag is the module-global
`dry_run` that the function reads (not the job's own flag). -/
def mkdir_for_dst (fs : FS) (dst : Path) (g : Bool) : FS :=
  if g then fs else fsMkdir fs (splitP dst).1

/-- Embeds `convert_image` from `expose.py`.  `g` is the module-global
`dry_run` read by `mkdir_for_dst`.  Returns the filesystem after the call
together with `true` for normal return, `false` when the external `convert`
call (or the hash write) raised, aborting the job at that point. -/
def convert_image (ext : Ext) (g : Bool) (fs : FS) (job : ImageJob) : FS × Bool :=
  let fs1 := mkdir_for_dst fs job.dst g
  if job.dry_run then (fs1, true)
  else
    match fsRead fs1 job.src with
    | none => (fs1, false)
    | some c =>
      match ext.resize c job.size with
      | none => (fs1, false)
      | some out =>
        let fs2 := fsWrite fs1 job.dst out
        match write_hash ext fs2 job.src job.dst with
        | none => (fs2, false)
        | some fs3 => (fs3, true)

/-- Embeds `convert_video` from `expose.py`: encode the video, then extract
the poster frame unless one already exists, then (only then) write the hash.
Any failing external call aborts the job at that point. -/
def convert_video (ext : Ext) (g : Bool) (fs : FS) (job : VideoJob) : FS × Bool :=
  let fs1 := mkdir_for_dst fs job.dst g
  if job.dry_run then (fs1, true)
  else
    match fsRead fs1 job.src with
    | none => (fs1, false)
    | some c =>
      match ext.encode c job.format job.resolution job.bitrate
          (job.bitrate * job.cfg.VIDEO_VBR_MAX) with
      | none => (fs1, false)
      | some out =>
        let fs2 := fsWrite fs1 job.dst out
        let pd := poster_path job.dst
        let step :=
          if fsIsFile fs2 pd then (fs2, true)
          else
            match ext.poster out with
            | none => (fs2, false)
            | some pc => (fsWrite fs2 pd pc, true)
        match step with
        | (fs3, false) => (fs3, false)
        | (fs3, true) =>
          match write_hash ext fs3 job.src job.dst with
          | none => (fs3, false)
          | some fs4 => (fs4, true)

/-- The image-resolution loop of `file_targets` (the `else` branch):
for each resolution not exceeding the width, build the destination and either
add the job or count it as skipped. -/
def img_loop (ext : Ext) (cfg : Config) (fs : FS) (src name ext0 : Path)
    (dry : Bool) (width : Nat) : List Nat → List MediaJob × Nat
  | [] => ([], 0)
  | r :: rest =>
    let acc := img_loop ext cfg fs src name ext0 dry width rest
    if r > width then acc
    else
      let dst := artifact_dst cfg src (artifact_full name r ext0)
      if needs_work ext fs src dst then (.img ⟨src, dst, r, dry⟩ :: acc.1, acc.2)
      else (acc.1, acc.2 + 1)

/-- The video-resolution loop of `file_targets` for one format, carrying the
`enumerate` index used to pair each resolution with its bitrate positionally
(`cfg.VIDEO_BITRATES[i]`; out-of-range indexing, an `IndexError` in Python,
is modelled by a default of 0 and excluded by the equal-length hypothesis of
the claims that touch bitrates). -/
def vid_loop (ext : Ext) (cfg : Config) (fs : FS) (src name : Path)
    (dry : Bool) (width : Nat) (fmt : VidFmt) :
    Nat → List Nat → List MediaJob × Nat
  | _, [] => ([], 0)
  | i, r :: rest =>
    let acc := vid_loop ext cfg fs src name dry width fmt (i + 1) rest
    if r > width then acc
    else
      let bitrate := cfg.VIDEO_BITRATES.getD i 0
      let dst := artifact_dst cfg src (artifact_full name r (VIDEO_FMT_EXTS fmt))
      if needs_work ext fs src dst then
        (.vid ⟨cfg, src, dst, fmt, r, bitrate, dry⟩ :: acc.1, acc.2)
      else (acc.1, acc.2 + 1)

/-- The outer format loop of `file_targets` for video sources. -/
def vid_fmts (ext : Ext) (cfg : Config) (fs : FS) (src name : Path)
    (dry : Bool) (width : Nat) : List VidFmt → List MediaJob × Nat
  | [] => ([], 0)
  | f :: rest =>
    let a := vid_loop ext cfg fs src name dry width f 0 cfg.RESOLUTIONS
    let b := vid_fmts ext cfg fs src name dry width rest
    (a.1 ++ b.1, a.2 + b.2)

/-- Embeds `file_targets` from `expose.py`: the jobs needing work for one
source file, plus the number of artifacts skipped as cached. -/
def file_targets (ext : Ext) (cfg : Config) (fs : FS) (src : Path)
    (is_video dry : Bool) : List MediaJob × Nat :=
  let ne := sanitary_name_and_ext src
  let width := (ext.dims src).1
  if is_video then vid_fmts ext cfg fs src ne.1 dry width cfg.VIDEO_FORMATS
  else img_loop ext cfg fs src ne.1 ne.2 dry width cfg.RESOLUTIONS

/-- The image loop of the planner alone: the artifacts `file_targets`
considers for an image source, before the staleness check. -/
def planned_img_loop (cfg : Config) (src name ext0 : Path) (dry : Bool)
    (width : Nat) : List Nat → List MediaJob
  | [] => []
  | r :: rest =>
    let acc := planned_img_loop cfg src name ext0 dry width rest
    if r > width then acc
    else .img ⟨src, artifact_dst cfg src (artifact_full name r ext0), r, dry⟩ :: acc

/-- The video loop of the planner alone, for one format. -/
def planned_vid_loop (cfg : Config) (src name : Path) (dry : Bool)
    (width : Nat) (fmt : VidFmt) : Nat → List Nat → List MediaJob
  | _, [] => []
  | i, r :: rest =>
    let acc := planned_vid_loop cfg src name dry width fmt (i + 1) rest
    if r > width then acc
    else
      .vid ⟨cfg, src, artifact_dst cfg src (artifact_full name r (VIDEO_FMT_EXTS fmt)),
        fmt, r, cfg.VIDEO_BITRATES.getD i 0, dry⟩ :: acc

/-- The format loop of the planner alone. -/
def planned_vid_fmts (cfg : Config) (src name : Path) (dry : Bool)
    (width : Nat) : List VidFmt → List MediaJob
  | [] => []
  | f :: rest =>
    planned_vid_loop cfg src name dry width f 0 cfg.RESOLUTIONS ++
      planned_vid_fmts cfg src name dry width rest

/-- The planner half of `file_targets`: every artifact the loops of
`file_targets` consider for the source (the resolution-vs-width filter
applied, the staleness filter not yet applied). -/
def planned_targets (ext : Ext) (cfg : Config) (src : Path)
    (is_video dry : Bool) : List MediaJob :=
  let ne := sanitary_name_and_ext src
  let width := (ext.dims src).1
  if is_video then planned_vid_fmts cfg src ne.1 dry width cfg.VIDEO_FORMATS
  else planned_img_loop cfg src ne.1 ne.2 dry width cfg.RESOLUTIONS

/-- Runs one job through the converter of its kind. -/
def exec_job (ext : Ext) (g : Bool) (fs : FS) : MediaJob → FS × Bool
  | .img j => convert_image ext g fs j
  | .vid j => convert_video ext g fs j

/-- Runs a job list in order, counting the completion signals the wrappers
`convert_image_wrap` / `convert_video_wrap` put on the progress queue: one
signal per job whose conversion returned (a raising conversion skips the
`queue.put(True)`). -/
def exec_jobs (ext : Ext) (g : Bool) (fs : FS) : List MediaJob → FS × Nat
  | [] => (fs, 0)
  | j :: rest =>
    let a := exec_job ext g fs j
    let b := exec_jobs ext g a.1 rest
    (b.1, (if a.2 then 1 else 0) + b.2)

/-- Whether every conversion in the list returns normally, in order. -/
def all_ok (ext : Ext) (g : Bool) (fs : FS) : List MediaJob → Bool
  | [] => true
  | j :: rest =>
    let a := exec_job ext g fs j
    a.2 && all_ok ext g a.1 rest

/-- The observable outcome of `run_jobs` from `expose.py`: whether a worker
pool was constructed, how many completion signals the drain loop waits for
(`total = len(jobs)`), how many signals the workers actually emit, and the
resulting filesystem. -/
structure RunOutcome where
  poolConstructed : Bool
  submitted : Nat
  emitted : Nat
  fs : FS
deriving DecidableEq

/-- Embeds `run_jobs` from `expose.py`: an empty job list returns at once
without constructing a pool; otherwise the pool runs every job and the
caller drains the queue. -/
def run_jobs (ext : Ext) (g : Bool) (fs : FS) (jobs : List MediaJob) : RunOutcome :=
  match jobs with
  | [] => ⟨false, 0, 0, fs⟩
  | _ :: _ =>
    let a := exec_jobs ext g fs jobs
    ⟨true, jobs.length, a.2, a.1⟩

/-- Whether the drain loop `while total > 0: queue.get()` of `run_jobs`
terminates: it needs as many signals as jobs were submitted. -/
def run_jobs_returns (o : RunOutcome) : Bool :=
  !o.poolConstructed || decide (o.submitted ≤ o.emitted)

/-- Embeds the per-source aggregation of `media_jobs` from `expose.py` over
an explicit source list (source discovery by glob is outside the core). -/
def collect_jobs (ext : Ext) (cfg : Config) (fs : FS) (is_video dry : Bool) :
    List Path → List MediaJob × Nat
  | [] => ([], 0)
  | s :: rest =>
    let a := file_targets ext cfg fs s is_video dry
    let b := collect_jobs ext cfg fs is_video dry rest
    (a.1 ++ b.1, a.2 + b.2)

/-- The write footprint of one job: its destination and sidecar (and, for a
video job, its poster frame). -/
def job_write_paths : MediaJob → List Path
  | .img j => [j.dst, hash_path_for_dst j.dst]
  | .vid j => [j.dst, poster_path j.dst, hash_path_for_dst j.dst]

/-- The write footprint of a job list. -/
def writePaths (jobs : List MediaJob) : List Path :=
  jobs.flatMap job_write_paths

/-- The paths a later planning pass consults about a job's artifact: its
destination and its sidecar.  The poster frame is written but never read by
planning, so poster paths may be shared across jobs (as the two video
formats of one resolution share theirs by design). -/
def job_read_paths (j : MediaJob) : List Path :=
  [job_dst j, hash_path_for_dst (job_dst j)]

/-- Every artifact planned for a run: the planner output of every image
source followed by that of every video source, as `expose.py`'s main flow
collects image jobs and video jobs. -/
def planned_all (ext : Ext) (cfg : Config) (imgSrcs vidSrcs : List Path) :
    List MediaJob :=
  imgSrcs.flatMap (fun s => planned_targets ext cfg s false false) ++
    vidSrcs.flatMap (fun s => planned_targets ext cfg s true false)

/-- The full non-dry render pipeline of `expose.py`'s main flow: collect the
image jobs and the video jobs against the initial filesystem, then execute
both batches. -/
def pipeline_fs (ext : Ext) (cfg : Config) (fs : FS)
    (imgSrcs vidSrcs : List Path) : FS :=
  (exec_jobs ext false fs
    ((collect_jobs ext cfg fs false false imgSrcs).1 ++
      (collect_jobs ext cfg fs true false vidSrcs).1)).1

/-! ### Concrete instances used by witnesses and counterexamples -/

/-- Collaborators that always succeed: the digest of a content is the content
itself, a resize prefixes `R`, an encode prefixes `E`, a poster frame
prefixes `P`, and every probed source is 9 pixels wide. -/
def extOk : Ext :=
  ⟨fun c => c, fun c _ => some ('R' :: c), fun c _ _ _ _ => some ('E' :: c),
    fun c => some ('P' :: c), fun _ => (9, 9)⟩

/-- Collaborators whose transforms always fail. -/
def extFail : Ext :=
  ⟨fun c => c, fun _ _ => none, fun _ _ _ _ _ => none, fun _ => none,
    fun _ => (9, 9)⟩

/-- Collaborators probing every source as a 1000x2000 portrait. -/
def extPortrait : Ext :=
  ⟨fun c => c, fun c _ => some ('R' :: c), fun c _ _ _ _ => some ('E' :: c),
    fun c => some ('P' :: c), fun _ => (1000, 2000)⟩

/-- A small concrete policy: one 7-pixel resolution, h264 only, bitrate 3. -/
def cfgEx : Config :=
  ⟨("/s").toList, ("/d").toList, [7], [.h264], [3], 2⟩

/-- The policy `cfgEx` with both shipped video formats enabled, so the two
video jobs of a resolution share one poster path. -/
def cfgEx2 : Config :=
  ⟨("/s").toList, ("/d").toList, [7], [.h264, .webm], [3], 2⟩

/-- A policy with a single resolution of 1500 (between the portrait's width
1000 and height 2000). -/
def cfgPortrait : Config :=
  ⟨("/s").toList, ("/d").toList, [1500], [.h264], [12], 2⟩

/-- An image source whose name contains whitespace. -/
def srcA : Path := ("/s/a b.jpg").toList

/-- A distinct image source whose sanitized name collides with `srcA`. -/
def srcB : Path := ("/s/a-b.jpg").toList

/-- A video source. -/
def srcV : Path := ("/s/v.mp4").toList

/-- A source tree holding the three sources with distinct contents. -/
def fsEx : FS :=
  ⟨[(srcA, ("P").toList), (srcB, ("Q").toList), (srcV, ("V").toList)], []⟩

/-- A destination artifact path for `srcA` under `cfgEx`. -/
def dstEx : Path := ("/d/a-b/a-b-7.jpg").toList

/-- A state where the destination is absent but its sidecar exists and holds
exactly the fresh digest of the (unmodified) source. -/
def fsSidecarOnly : FS :=
  ⟨[(srcA, ("P").toList), (hash_path_for_dst dstEx, ("P").toList)], []⟩

/-- A single live image job, used with `extFail` to observe a failing
transform. -/
def jobFailEx : MediaJob := .img ⟨srcA, dstEx, 7, false⟩

/-- The live image job that `file_targets` plans for `srcA` under `cfgEx`. -/
def ijEx : ImageJob := ⟨srcA, dstEx, 7, false⟩

/-- The live h264 video job that `file_targets` plans for `srcV` under
`cfgEx`. -/
def vjEx : VideoJob := ⟨cfgEx, srcV, ("/d/v/v-7.mp4").toList, .h264, 7, 3, false⟩

/-- A dry-run image job. -/
def ijDry : ImageJob := ⟨srcA, dstEx, 7, true⟩

/-- A dry-run video job. -/
def vjDry : VideoJob := ⟨cfgEx, srcV, ("/d/v/v-7.mp4").toList, .h264, 7, 3, true⟩

/-- A state where the destination, its sidecar, and the source all exist and
the sidecar holds the fresh digest of the source. -/
def fsCached : FS :=
  ⟨[(srcA, ("P").toList), (dstEx, ("X").toList),
    (hash_path_for_dst dstEx, ("P").toList)], []⟩

/-- The tree of `fsEx` after one full image pipeline over the two colliding
sources `srcA` and `srcB`. -/
def fsTwice : FS := pipeline_fs extOk cfgEx fsEx [srcA, srcB] []

/-! ### Basic filesystem lemmas -/

theorem fsRead_fsWrite_self (fs : FS) (p : Path) (c : Content) :
    fsRead (fsWrite fs p c) p = some c := by
  simp [fsRead, fsWrite, lookupA]

theorem fsRead_fsWrite_ne (fs : FS) (p : Path) (c : Content) (q : Path)
    (h : p ≠ q) : fsRead (fsWrite fs p c) q = fsRead fs q := by
  simp [fsRead, fsWrite, lookupA, h]

theorem fsRead_fsMkdir (fs : FS) (d p : Path) :
    fsRead (fsMkdir fs d) p = fsRead fs p := rfl

theorem fsRead_mkdir_for_dst (fs : FS) (dst : Path) (g : Bool) (p : Path) :
    fsRead (mkdir_for_dst fs dst g) p = fsRead fs p := by
  unfold mkdir_for_dst
  split <;> rfl

theorem fsRead_isSome_fsWrite (fs : FS) (p : Path) (c : Content) (q : Path)
    (h : (fsRead fs q).isSome = true) :
    (fsRead (fsWrite fs p c) q).isSome = true := by
  by_cases hpq : p = q
  · subst hpq
    simp [fsRead_fsWrite_self]
  · rwa [fsRead_fsWrite_ne fs p c q hpq]

/-! ### `file_targets` as planner plus staleness filter -/

theorem img_loop_eq (ext : Ext) (cfg : Config) (fs : FS) (src name ext0 : Path)
    (dry : Bool) (width : Nat) (rs : List Nat) :
    img_loop ext cfg fs src name ext0 dry width rs =
      ((planned_img_loop cfg src name ext0 dry width rs).filter (needsJ ext fs),
       ((planned_img_loop cfg src name ext0 dry width rs).filter
         (fun j => !(needsJ ext fs j))).length) := by
  induction rs with
  | nil => rfl
  | cons r rest ih =>
    simp only [img_loop, planned_img_loop, ih]
    by_cases hw : r > width
    · simp [hw]
    · simp only [if_neg hw]
      by_cases hn : needs_work ext fs src (artifact_dst cfg src (artifact_full name r ext0))
      · simp [List.filter_cons, needsJ, job_src, job_dst, hn]
      · simp [List.filter_cons, needsJ, job_src, job_dst, hn]

theorem vid_loop_eq (ext : Ext) (cfg : Config) (fs : FS) (src name : Path)
    (dry : Bool) (width : Nat) (fmt : VidFmt) (i : Nat) (rs : List Nat) :
    vid_loop ext cfg fs src name dry width fmt i rs =
      ((planned_vid_loop cfg src name dry width fmt i rs).filter (needsJ ext fs),
       ((planned_vid_loop cfg src name dry width fmt i rs).filter
         (fun j => !(needsJ ext fs j))).length) := by
  induction rs generalizing i with
  | nil => rfl
  | cons r rest ih =>
    simp only [vid_loop, planned_vid_loop, ih]
    by_cases hw : r > width
    · simp [hw]
    · simp only [if_neg hw]
      by_cases hn : needs_work ext fs src
          (artifact_dst cfg src (artifact_full name r (VIDEO_FMT_EXTS fmt)))
      · simp [List.filter_cons, needsJ, job_src, job_dst, hn]
      · simp [List.filter_cons, needsJ, job_src, job_dst, hn]

theorem vid_fmts_eq (ext : Ext) (cfg : Config) (fs : FS) (src name : Path)
    (dry : Bool) (width : Nat) (fmts : List VidFmt) :
    vid_fmts ext cfg fs src name dry width fmts =
      ((planned_vid_fmts cfg src name dry width fmts).filter (needsJ ext fs),
       ((planned_vid_fmts cfg src name dry width fmts).filter
         (fun j => !(needsJ ext fs j))).length) := by
  induction fmts with
  | nil => rfl
  | cons f rest ih =>
    simp only [vid_fmts, planned_vid_fmts, ih, vid_loop_eq, List.filter_append,
      List.length_append]

/-- `file_targets` returns exactly the planned artifacts passing the
staleness test, and counts exactly the planned artifacts failing it. -/
theorem file_targets_eq (ext : Ext) (cfg : Config) (fs : FS) (src : Path)
    (is_video dry : Bool) :
    file_targets ext cfg fs src is_video dry =
      ((planned_targets ext cfg src is_video dry).filter (needsJ ext fs),
       ((planned_targets ext cfg src is_video dry).filter
         (fun j => !(needsJ ext fs j))).length) := by
  unfold file_targets planned_targets
  cases is_video
  · simpa using img_loop_eq ext cfg fs src _ _ dry _ cfg.RESOLUTIONS
  · simpa using vid_fmts_eq ext cfg fs src _ dry _ cfg.VIDEO_FORMATS

/-- The staleness test, spelled out: work is needed exactly when the
destination is absent, or the sidecar record is absent, or the stored digest
differs from the freshly computed digest of the source. -/
theorem needs_work_iff (ext : Ext) (fs : FS) (src dst : Path) :
    needs_work ext fs src dst = true ↔
      (fsRead fs dst = none ∨ fsRead fs (hash_path_for_dst dst) = none ∨
        ∃ h, fsRead fs (hash_path_for_dst dst) = some h ∧
          hash_file ext fs src ≠ some h) := by
  unfold needs_work fsIsFile is_dirty
  cases hd : fsRead fs dst <;> cases hs : fsRead fs (hash_path_for_dst dst) <;>
    simp [hd, hs]

/-! ### Membership in the planner output -/

theorem planned_img_loop_mem (cfg : Config) (src name ext0 : Path) (dry : Bool)
    (width : Nat) (rs : List Nat) (j : MediaJob) :
    j ∈ planned_img_loop cfg src name ext0 dry width rs ↔
      ∃ r, r ∈ rs ∧ ¬(r > width) ∧
        j = .img ⟨src, artifact_dst cfg src (artifact_full name r ext0), r, dry⟩ := by
  induction rs with
  | nil => simp [planned_img_loop]
  | cons r rest ih =>
    simp only [planned_img_loop]
    by_cases hw : r > width
    · rw [if_pos hw, ih]
      constructor
      · rintro ⟨r', h1, h2, h3⟩
        exact ⟨r', List.mem_cons_of_mem _ h1, h2, h3⟩
      · rintro ⟨r', h1, h2, h3⟩
        rcases List.mem_cons.mp h1 with rfl | h1'
        · exact absurd hw h2
        · exact ⟨r', h1', h2, h3⟩
    · rw [if_neg hw]
      constructor
      · intro hm
        rcases List.mem_cons.mp hm with rfl | hm'
        · exact ⟨r, List.mem_cons_self _ _, hw, rfl⟩
        · rcases ih.mp hm' with ⟨r', h1, h2, h3⟩
          exact ⟨r', List.mem_cons_of_mem _ h1, h2, h3⟩
      · rintro ⟨r', h1, h2, h3⟩
        rcases List.mem_cons.mp h1 with rfl | h1'
        · subst h3
          exact List.mem_cons_self _ _
        · exact List.mem_cons_of_mem _ (ih.mpr ⟨r', h1', h2, h3⟩)

theorem planned_vid_loop_mem (cfg : Config) (src name : Path) (dry : Bool)
    (width : Nat) (fmt : VidFmt) (i : Nat) (rs : List Nat) (j : MediaJob) :
    j ∈ planned_vid_loop cfg src name dry width fmt i rs ↔
      ∃ k, k < rs.length ∧ ¬(rs.getD k 0 > width) ∧
        j = .vid ⟨cfg, src,
          artifact_dst cfg src (artifact_full name (rs.getD k 0) (VIDEO_FMT_EXTS fmt)),
          fmt, rs.getD k 0, cfg.VIDEO_BITRATES.getD (i + k) 0, dry⟩ := by
  induction rs generalizing i with
  | nil => simp [planned_vid_loop]
  | cons r rest ih =>
    simp only [planned_vid_loop]
    constructor
    · intro hm
      by_cases hw : r > width
      · rw [if_pos hw] at hm
        rcases (ih (i + 1)).mp hm with ⟨k, hk, h2, h3⟩
        refine ⟨k + 1, Nat.succ_lt_succ hk, ?_, ?_⟩
        · simpa [List.getD_cons_succ] using h2
        · rw [(by omega : i + (k + 1) = i + 1 + k)]
          simpa [List.getD_cons_succ] using h3
      · rw [if_neg hw] at hm
        rcases List.mem_cons.mp hm with rfl | hm'
        · exact ⟨0, Nat.succ_pos _, by simpa using hw, by simp⟩
        · rcases (ih (i + 1)).mp hm' with ⟨k, hk, h2, h3⟩
          refine ⟨k + 1, Nat.succ_lt_succ hk, ?_, ?_⟩
          · simpa [List.getD_cons_succ] using h2
          · rw [(by omega : i + (k + 1) = i + 1 + k)]
            simpa [List.getD_cons_succ] using h3
    · rintro ⟨k, hk, h2, h3⟩
      cases k with
      | zero =>
        simp only [List.getD_cons_zero] at h2
        simp only [List.getD_cons_zero, Nat.add_zero] at h3
        rw [if_neg h2]
        subst h3
        exact List.mem_cons_self _ _
      | succ n =>
        have hn : n < rest.length := Nat.lt_of_succ_lt_succ hk
        have hmem : j ∈ planned_vid_loop cfg src name dry width fmt (i + 1) rest := by
          refine (ih (i + 1)).mpr ⟨n, hn, ?_, ?_⟩
          · simpa [List.getD_cons_succ] using h2
          · rw [(by omega : i + 1 + n = i + (n + 1))]
            simpa [List.getD_cons_succ] using h3
        by_cases hw : r > width
        · rwa [if_pos hw]
        · rw [if_neg hw]
          exact List.mem_cons_of_mem _ hmem

theorem planned_vid_fmts_mem (cfg : Config) (src name : Path) (dry : Bool)
    (width : Nat) (fmts : List VidFmt) (j : MediaJob) :
    j ∈ planned_vid_fmts cfg src name dry width fmts ↔
      ∃ f, f ∈ fmts ∧ j ∈ planned_vid_loop cfg src name dry width f 0 cfg.RESOLUTIONS := by
  induction fmts with
  | nil => simp [planned_vid_fmts]
  | cons f rest ih =>
    simp only [planned_vid_fmts, List.mem_append, ih, List.mem_cons]
    constructor
    · rintro (h | ⟨f', hf', hm⟩)
      · exact ⟨f, Or.inl rfl, h⟩
      · exact ⟨f', Or.inr hf', hm⟩
    · rintro ⟨f', hf' | hf', hm⟩
      · subst hf'
        exact Or.inl hm
      · exact Or.inr ⟨f', hf', hm⟩

/-! ### The sidecar path differs from the destination path -/

theorem slash_not_mem_basenameCh (p : Path) : '/' ∉ basenameCh p := by
  intro h
  have h1 : '/' ∈ p.reverse.takeWhile (fun c => !(c == '/')) :=
    List.mem_reverse.mp h
  have h2 := List.mem_takeWhile_imp h1
  simp at h2

theorem takeWhile_append_all (p : Char → Bool) (u v : List Char)
    (h : ∀ a ∈ u, p a = true) :
    (u ++ v).takeWhile p = u ++ v.takeWhile p := by
  induction u with
  | nil => rfl
  | cons a u ih =>
    rw [List.cons_append, List.takeWhile_cons, if_pos (h a (List.mem_cons_self _ _)),
      ih (fun b hb => h b (List.mem_cons_of_mem _ hb)), List.cons_append]

theorem basenameCh_of_append (a x : Path) (hx : '/' ∉ x)
    (ha : a = [] ∨ a.getLast? = some '/') : basenameCh (a ++ x) = x := by
  have hall : ∀ c ∈ x.reverse, (fun c => !(c == '/')) c = true := by
    intro c hc
    have : c ≠ '/' := fun he => hx (he ▸ List.mem_reverse.mp hc)
    simp [this]
  unfold basenameCh
  rw [List.reverse_append, takeWhile_append_all _ _ _ hall]
  rcases ha with rfl | ha
  · simp
  · have : a.reverse.head? = some '/' := by
      rw [List.head?_reverse]
      exact ha
    rcases hr : a.reverse with _ | ⟨b, t⟩
    · simp [hr] at this
    · rw [hr] at this
      simp only [List.head?_cons, Option.some_inj] at this
      subst this
      rw [List.takeWhile_cons]
      simp

theorem basenameCh_joinP (d x : Path) (hx : '/' ∉ x)
    (hhd : x.head? ≠ some '/') : basenameCh (joinP d x) = x := by
  unfold joinP
  rw [if_neg hhd]
  by_cases hd : d = []
  · rw [if_pos hd]
    have := basenameCh_of_append [] x hx (Or.inl rfl)
    simpa using this
  · rw [if_neg hd]
    by_cases hl : d.getLast? = some '/'
    · rw [if_pos hl]
      exact basenameCh_of_append d x hx (Or.inr hl)
    · rw [if_neg hl]
      have he : d ++ '/' :: x = (d ++ ['/']) ++ x := by
        simp
      rw [he]
      exact basenameCh_of_append (d ++ ['/']) x hx (Or.inr (by simp))

theorem hash_path_for_dst_ne (d : Path) : hash_path_for_dst d ≠ d := by
  intro he
  have hx : '/' ∉ ('.' :: (basenameCh d ++ (".src.sha256").toList)) := by
    intro hm
    rcases List.mem_cons.mp hm with h | h
    · exact absurd h (by decide)
    · rcases List.mem_append.mp h with h | h
      · exact slash_not_mem_basenameCh d h
      · exact absurd h (by decide)
  have hhd : ('.' :: (basenameCh d ++ (".src.sha256").toList)).head? ≠ some '/' := by
    simp only [List.head?_cons]
    intro h
    exact absurd (Option.some_inj.mp h) (by decide)
  have hb : basenameCh (hash_path_for_dst d) =
      '.' :: (basenameCh d ++ (".src.sha256").toList) := by
    unfold hash_path_for_dst
    exact basenameCh_joinP _ _ hx hhd
  rw [he] at hb
  have hlen := congrArg List.length hb
  simp only [List.length_cons, List.length_append] at hlen
  omega

/-! ### Converter behavior lemmas -/

theorem convert_image_dry (ext : Ext) (g : Bool) (fs : FS) (j : ImageJob)
    (h : j.dry_run = true) :
    convert_image ext g fs j = (mkdir_for_dst fs j.dst g, true) := by
  simp [convert_image, h]

theorem convert_video_dry (ext : Ext) (g : Bool) (fs : FS) (j : VideoJob)
    (h : j.dry_run = true) :
    convert_video ext g fs j = (mkdir_for_dst fs j.dst g, true) := by
  simp [convert_video, h]

theorem convert_image_fail_sidecar (ext : Ext) (g : Bool) (fs : FS) (j : ImageJob)
    (h : (convert_image ext g fs j).2 = false) :
    fsRead (convert_image ext g fs j).1 (hash_path_for_dst j.dst) =
      fsRead fs (hash_path_for_dst j.dst) := by
  unfold convert_image at h ⊢
  by_cases hdry : j.dry_run = true
  · simp [hdry] at h
  · rw [Bool.not_eq_true] at hdry
    simp only [hdry, Bool.false_eq_true, if_false] at h ⊢
    cases hc : fsRead (mkdir_for_dst fs j.dst g) j.src with
    | none => simp [hc, fsRead_mkdir_for_dst]
    | some c =>
      simp only [hc] at h ⊢
      cases hout : ext.resize c j.size with
      | none => simp [hout, fsRead_mkdir_for_dst]
      | some out =>
        simp only [hout] at h ⊢
        have hsrc2 : fsRead (fsWrite (mkdir_for_dst fs j.dst g) j.dst out) j.src ≠ none := by
          by_cases hsd : j.dst = j.src
          · rw [hsd, fsRead_fsWrite_self]
            simp
          · rw [fsRead_fsWrite_ne _ _ _ _ hsd, hc]
            simp
        cases hw : write_hash ext (fsWrite (mkdir_for_dst fs j.dst g) j.dst out) j.src j.dst with
        | none =>
          exfalso
          apply hsrc2
          unfold write_hash at hw
          exact Option.map_eq_none.mp hw
        | some fs3 =>
          simp [hw] at h

theorem convert_video_fail_sidecar (ext : Ext) (g : Bool) (fs : FS) (j : VideoJob)
    (h : (convert_video ext g fs j).2 = false) :
    fsRead (convert_video ext g fs j).1 (hash_path_for_dst j.dst) =
      fsRead fs (hash_path_for_dst j.dst) := by
  unfold convert_video at h ⊢
  by_cases hdry : j.dry_run = true
  · simp [hdry] at h
  · rw [Bool.not_eq_true] at hdry
    simp only [hdry, Bool.false_eq_true, if_false] at h ⊢
    cases hc : fsRead (mkdir_for_dst fs j.dst g) j.src with
    | none => simp [hc, fsRead_mkdir_for_dst]
    | some c =>
      simp only [hc] at h ⊢
      cases hout : ext.encode c j.format j.resolution j.bitrate
          (j.bitrate * j.cfg.VIDEO_VBR_MAX) with
      | none => simp [hout, fsRead_mkdir_for_dst]
      | some out =>
        simp only [hout] at h ⊢
        have hsrc2 : ∀ fs3 : FS, fsRead fs3 j.src ≠ none →
            write_hash ext fs3 j.src j.dst ≠ none := by
          intro fs3 h3 hw
          exact h3 (Option.map_eq_none.mp hw)
        by_cases hpd : fsIsFile (fsWrite (mkdir_for_dst fs j.dst g) j.dst out)
            (poster_path j.dst) = true
        · simp only [hpd, if_true] at h ⊢
          have hne : fsRead (fsWrite (mkdir_for_dst fs j.dst g) j.dst out) j.src ≠ none := by
            by_cases hsd : j.dst = j.src
            · rw [hsd, fsRead_fsWrite_self]
              simp
            · rw [fsRead_fsWrite_ne _ _ _ _ hsd, hc]
              simp
          cases hw : write_hash ext (fsWrite (mkdir_for_dst fs j.dst g) j.dst out)
              j.src j.dst with
          | none => exact absurd hw (hsrc2 _ hne)
          | some fs4 => simp [hw] at h
        · rw [Bool.not_eq_true] at hpd
          simp only [hpd, Bool.false_eq_true, if_false] at h ⊢
          cases hpc : ext.poster out with
          | none =>
            simp only [hpc] at h ⊢
            rw [fsRead_fsWrite_ne _ _ _ _ (hash_path_for_dst_ne j.dst).symm,
              fsRead_mkdir_for_dst]
          | some pc =>
            simp only [hpc] at h ⊢
            have hne : fsRead (fsWrite (fsWrite (mkdir_for_dst fs j.dst g) j.dst out)
                (poster_path j.dst) pc) j.src ≠ none := by
              by_cases hps : poster_path j.dst = j.src
              · rw [hps, fsRead_fsWrite_self]
                simp
              · rw [fsRead_fsWrite_ne _ _ _ _ hps]
                by_cases hsd : j.dst = j.src
                · rw [hsd, fsRead_fsWrite_self]
                  simp
                · rw [fsRead_fsWrite_ne _ _ _ _ hsd, hc]
                  simp
            cases hw : write_hash ext (fsWrite (fsWrite (mkdir_for_dst fs j.dst g)
                j.dst out) (poster_path j.dst) pc) j.src j.dst with
            | none => exact absurd hw (hsrc2 _ hne)
            | some fs4 => simp [hw] at h

theorem convert_image_ok (ext : Ext) (g : Bool) (fs : FS) (j : ImageJob)
    (hdry : j.dry_run = false)
    (hsrc : (fsRead fs j.src).isSome = true)
    (hres : ∀ c n, (ext.resize c n).isSome = true)
    (hsep : j.src ≠ j.dst) :
    ∃ fs1, convert_image ext g fs j = (fs1, true) ∧
      (∀ p, p ≠ j.dst → p ≠ hash_path_for_dst j.dst → fsRead fs1 p = fsRead fs p) ∧
      (fsRead fs1 j.dst).isSome = true ∧
      fsRead fs1 (hash_path_for_dst j.dst) = (fsRead fs j.src).map ext.hashFn := by
  obtain ⟨c, hc⟩ := Option.isSome_iff_exists.mp hsrc
  obtain ⟨out, hout⟩ := Option.isSome_iff_exists.mp (hres c j.size)
  have hc1 : fsRead (mkdir_for_dst fs j.dst g) j.src = some c := by
    rw [fsRead_mkdir_for_dst, hc]
  have hds : j.dst ≠ j.src := Ne.symm hsep
  have h2 : fsRead (fsWrite (mkdir_for_dst fs j.dst g) j.dst out) j.src = some c := by
    rw [fsRead_fsWrite_ne _ _ _ _ hds, hc1]
  have hconv : convert_image ext g fs j =
      (fsWrite (fsWrite (mkdir_for_dst fs j.dst g) j.dst out)
        (hash_path_for_dst j.dst) (ext.hashFn c), true) := by
    simp only [convert_image, hdry, Bool.false_eq_true, if_false, hc1, hout,
      write_hash, h2]
    rfl
  refine ⟨_, hconv, ?_, ?_, ?_⟩
  · intro p h1 h2'
    rw [fsRead_fsWrite_ne _ _ _ _ (Ne.symm h2'), fsRead_fsWrite_ne _ _ _ _ (Ne.symm h1),
      fsRead_mkdir_for_dst]
  · by_cases hx : hash_path_for_dst j.dst = j.dst
    · rw [hx, fsRead_fsWrite_self]
      rfl
    · rw [fsRead_fsWrite_ne _ _ _ _ hx, fsRead_fsWrite_self]
      rfl
  · rw [fsRead_fsWrite_self, hc]
    rfl

theorem convert_video_ok (ext : Ext) (g : Bool) (fs : FS) (j : VideoJob)
    (hdry : j.dry_run = false)
    (hsrc : (fsRead fs j.src).isSome = true)
    (henc : ∀ c f r b m, (ext.encode c f r b m).isSome = true)
    (hpos : ∀ c, (ext.poster c).isSome = true)
    (hs1 : j.src ≠ j.dst)
    (hs2 : j.src ≠ poster_path j.dst) :
    ∃ fs1, convert_video ext g fs j = (fs1, true) ∧
      (∀ p, p ≠ j.dst → p ≠ poster_path j.dst → p ≠ hash_path_for_dst j.dst →
        fsRead fs1 p = fsRead fs p) ∧
      (fsRead fs1 j.dst).isSome = true ∧
      fsRead fs1 (hash_path_for_dst j.dst) = (fsRead fs j.src).map ext.hashFn := by
  obtain ⟨c, hc⟩ := Option.isSome_iff_exists.mp hsrc
  obtain ⟨out, hout⟩ := Option.isSome_iff_exists.mp
    (henc c j.format j.resolution j.bitrate (j.bitrate * j.cfg.VIDEO_VBR_MAX))
  have hc1 : fsRead (mkdir_for_dst fs j.dst g) j.src = some c := by
    rw [fsRead_mkdir_for_dst, hc]
  have hds : j.dst ≠ j.src := Ne.symm hs1
  have hps : poster_path j.dst ≠ j.src := Ne.symm hs2
  have h2 : fsRead (fsWrite (mkdir_for_dst fs j.dst g) j.dst out) j.src = some c := by
    rw [fsRead_fsWrite_ne _ _ _ _ hds, hc1]
  by_cases hpd : fsIsFile (fsWrite (mkdir_for_dst fs j.dst g) j.dst out)
      (poster_path j.dst) = true
  · have hconv : convert_video ext g fs j =
        (fsWrite (fsWrite (mkdir_for_dst fs j.dst g) j.dst out)
          (hash_path_for_dst j.dst) (ext.hashFn c), true) := by
      simp only [convert_video, hdry, Bool.false_eq_true, if_false, hc1, hout,
        hpd, if_true, write_hash, h2]
      rfl
    refine ⟨_, hconv, ?_, ?_, ?_⟩
    · intro p h1 _ h3
      rw [fsRead_fsWrite_ne _ _ _ _ (Ne.symm h3), fsRead_fsWrite_ne _ _ _ _ (Ne.symm h1),
        fsRead_mkdir_for_dst]
    · by_cases hx : hash_path_for_dst j.dst = j.dst
      · rw [hx, fsRead_fsWrite_self]
        rfl
      · rw [fsRead_fsWrite_ne _ _ _ _ hx, fsRead_fsWrite_self]
        rfl
    · rw [fsRead_fsWrite_self, hc]
      rfl
  · obtain ⟨pc, hpc⟩ := Option.isSome_iff_exists.mp (hpos out)
    have h3 : fsRead (fsWrite (fsWrite (mkdir_for_dst fs j.dst g) j.dst out)
        (poster_path j.dst) pc) j.src = some c := by
      rw [fsRead_fsWrite_ne _ _ _ _ hps, h2]
    have hpd' : fsIsFile (fsWrite (mkdir_for_dst fs j.dst g) j.dst out)
        (poster_path j.dst) = false := by
      rw [Bool.not_eq_true] at hpd
      exact hpd
    have hconv : convert_video ext g fs j =
        (fsWrite (fsWrite (fsWrite (mkdir_for_dst fs j.dst g) j.dst out)
          (poster_path j.dst) pc) (hash_path_for_dst j.dst) (ext.hashFn c), true) := by
      simp only [convert_video, hdry, Bool.false_eq_true, if_false, hc1, hout,
        hpd', write_hash, h3, hpc]
      rfl
    refine ⟨_, hconv, ?_, ?_, ?_⟩
    · intro p h1 h2' h3'
      rw [fsRead_fsWrite_ne _ _ _ _ (Ne.symm h3'), fsRead_fsWrite_ne _ _ _ _ (Ne.symm h2'),
        fsRead_fsWrite_ne _ _ _ _ (Ne.symm h1), fsRead_mkdir_for_dst]
    · apply fsRead_isSome_fsWrite
      by_cases hx : poster_path j.dst = j.dst
      · rw [hx, fsRead_fsWrite_self]
        rfl
      · rw [fsRead_fsWrite_ne _ _ _ _ hx, fsRead_fsWrite_self]
        rfl
    · rw [fsRead_fsWrite_self, hc]
      rfl

/-- A job's conversion run with the per-job hypotheses of the pipeline:
normal return, writes confined to the job's write footprint, destination
created, sidecar set to the fresh digest of the source. -/
theorem exec_job_ok (ext : Ext) (fs : FS) (j : MediaJob)
    (hdry : job_dry j = false)
    (hsrc : (fsRead fs (job_src j)).isSome = true)
    (hres : ∀ c n, (ext.resize c n).isSome = true)
    (henc : ∀ c f r b m, (ext.encode c f r b m).isSome = true)
    (hpos : ∀ c, (ext.poster c).isSome = true)
    (hsep : ∀ q ∈ job_write_paths j, job_src j ≠ q) :
    ∃ fs1, exec_job ext false fs j = (fs1, true) ∧
      (∀ p, p ∉ job_write_paths j → fsRead fs1 p = fsRead fs p) ∧
      (fsRead fs1 (job_dst j)).isSome = true ∧
      fsRead fs1 (hash_path_for_dst (job_dst j)) =
        (fsRead fs (job_src j)).map ext.hashFn := by
  cases j with
  | img ij =>
    obtain ⟨fs1, heq, hpres, hdst, hsc⟩ := convert_image_ok ext false fs ij hdry hsrc hres
      (hsep ij.dst (by simp [job_write_paths]))
    refine ⟨fs1, heq, ?_, hdst, hsc⟩
    intro p hp
    simp only [job_write_paths, List.mem_cons, List.not_mem_nil, or_false, not_or] at hp
    exact hpres p hp.1 hp.2
  | vid vj =>
    obtain ⟨fs1, heq, hpres, hdst, hsc⟩ := convert_video_ok ext false fs vj hdry hsrc henc
      hpos (hsep vj.dst (by simp [job_write_paths]))
      (hsep (poster_path vj.dst) (by simp [job_write_paths]))
    refine ⟨fs1, heq, ?_, hdst, hsc⟩
    intro p hp
    simp only [job_write_paths, List.mem_cons, List.not_mem_nil, or_false, not_or] at hp
    exact hpres p hp.1 hp.2.1 hp.2.2

/-- Running a batch of fresh jobs no one of which writes the destination or
sidecar of another (shared poster paths are allowed): paths outside the
batch's write footprint are untouched, and every job ends with its destination
present and its sidecar holding the fresh digest of its (untouched) source. -/
theorem exec_jobs_props (ext : Ext) (fs : FS) (jobs : List MediaJob)
    (hdry : ∀ j ∈ jobs, job_dry j = false)
    (hsrcs : ∀ j ∈ jobs, (fsRead fs (job_src j)).isSome = true)
    (hres : ∀ c n, (ext.resize c n).isSome = true)
    (henc : ∀ c f r b m, (ext.encode c f r b m).isSome = true)
    (hpos : ∀ c, (ext.poster c).isSome = true)
    (hsep : ∀ j ∈ jobs, job_src j ∉ writePaths jobs)
    (hpw : jobs.Pairwise (fun a b =>
      (∀ q ∈ job_write_paths a, q ∉ job_read_paths b) ∧
      (∀ q ∈ job_write_paths b, q ∉ job_read_paths a))) :
    (∀ p, p ∉ writePaths jobs →
      fsRead (exec_jobs ext false fs jobs).1 p = fsRead fs p) ∧
    (∀ j ∈ jobs, (fsRead (exec_jobs ext false fs jobs).1 (job_dst j)).isSome = true ∧
      fsRead (exec_jobs ext false fs jobs).1 (hash_path_for_dst (job_dst j)) =
        (fsRead fs (job_src j)).map ext.hashFn) := by
  induction jobs generalizing fs with
  | nil => exact ⟨fun p _ => rfl, fun j hj => absurd hj (List.not_mem_nil j)⟩
  | cons j rest ih =>
    have hwcons : writePaths (j :: rest) = job_write_paths j ++ writePaths rest := by
      simp [writePaths]
    have hheadsep : ∀ q ∈ job_write_paths j, job_src j ≠ q := by
      intro q hq he
      apply hsep j (List.mem_cons_self _ _)
      rw [hwcons]
      exact List.mem_append.mpr (Or.inl (he ▸ hq))
    obtain ⟨fs1, heq, hpres, hdst, hsc⟩ := exec_job_ok ext fs j
      (hdry j (List.mem_cons_self _ _)) (hsrcs j (List.mem_cons_self _ _))
      hres henc hpos hheadsep
    have hdisj : ∀ b ∈ rest,
        (∀ q ∈ job_write_paths j, q ∉ job_read_paths b) ∧
        (∀ q ∈ job_write_paths b, q ∉ job_read_paths j) :=
      fun b hb => (List.pairwise_cons.mp hpw).1 b hb
    have hreadnotrest : ∀ q ∈ job_read_paths j, q ∉ writePaths rest := by
      intro q hq hmem
      rcases List.mem_flatMap.mp hmem with ⟨b, hb, hqb⟩
      exact (hdisj b hb).2 q hqb hq
    have hsrc1 : ∀ j' ∈ rest, fsRead fs1 (job_src j') = fsRead fs (job_src j') := by
      intro j' hj'
      apply hpres
      intro hmem
      apply hsep j' (List.mem_cons_of_mem _ hj')
      rw [hwcons]
      exact List.mem_append.mpr (Or.inl hmem)
    have ihres := ih fs1
      (fun j' hj' => hdry j' (List.mem_cons_of_mem _ hj'))
      (fun j' hj' => by rw [hsrc1 j' hj']; exact hsrcs j' (List.mem_cons_of_mem _ hj'))
      (fun j' hj' hmem => by
        apply hsep j' (List.mem_cons_of_mem _ hj')
        rw [hwcons]
        exact List.mem_append.mpr (Or.inr hmem))
      (List.pairwise_cons.mp hpw).2
    have hexec : exec_jobs ext false fs (j :: rest) =
        ((exec_jobs ext false fs1 rest).1,
          (if true then 1 else 0) + (exec_jobs ext false fs1 rest).2) := by
      simp only [exec_jobs, heq]
    constructor
    · intro p hp
      rw [hwcons] at hp
      have hp1 : p ∉ job_write_paths j := fun h => hp (List.mem_append.mpr (Or.inl h))
      have hp2 : p ∉ writePaths rest := fun h => hp (List.mem_append.mpr (Or.inr h))
      rw [hexec]
      simp only
      rw [ihres.1 p hp2, hpres p hp1]
    · intro j' hj'
      rw [hexec]
      simp only
      rcases List.mem_cons.mp hj' with rfl | hj''
      · have hd : job_dst j' ∉ writePaths rest :=
          hreadnotrest _ (by simp [job_read_paths])
        have hh : hash_path_for_dst (job_dst j') ∉ writePaths rest :=
          hreadnotrest _ (by simp [job_read_paths])
        rw [ihres.1 _ hd, ihres.1 _ hh]
        exact ⟨hdst, hsc⟩
      · have := ihres.2 j' hj''
        rwa [hsrc1 j' hj''] at this

/-! ### Pipeline idempotence machinery -/

theorem collect_jobs_fst (ext : Ext) (cfg : Config) (fs : FS) (iv dry : Bool)
    (srcs : List Path) :
    (collect_jobs ext cfg fs iv dry srcs).1 =
      srcs.flatMap (fun s => (file_targets ext cfg fs s iv dry).1) := by
  induction srcs with
  | nil => rfl
  | cons s rest ih => simp [collect_jobs, ih]

theorem filter_flatMap {α β : Type} (l : List α) (f : α → List β) (p : β → Bool) :
    (l.flatMap f).filter p = l.flatMap (fun a => (f a).filter p) := by
  induction l with
  | nil => rfl
  | cons a rest ih => simp [List.flatMap_cons, List.filter_append, ih]

theorem writePaths_filter_subset (jobs : List MediaJob) (p : MediaJob → Bool)
    (q : Path) (h : q ∈ writePaths (jobs.filter p)) : q ∈ writePaths jobs := by
  rcases List.mem_flatMap.mp h with ⟨b, hb, hqb⟩
  exact List.mem_flatMap.mpr ⟨b, (List.mem_filter.mp hb).1, hqb⟩

theorem planned_targets_fields (ext : Ext) (cfg : Config) (s : Path)
    (iv dry : Bool) (j : MediaJob) (hj : j ∈ planned_targets ext cfg s iv dry) :
    job_src j = s ∧ job_dry j = dry := by
  unfold planned_targets at hj
  cases iv with
  | false =>
    simp only [Bool.false_eq_true, if_false] at hj
    rcases (planned_img_loop_mem _ _ _ _ _ _ _ _).mp hj with ⟨r, _, _, rfl⟩
    exact ⟨rfl, rfl⟩
  | true =>
    simp only [if_true] at hj
    rcases (planned_vid_fmts_mem _ _ _ _ _ _ _).mp hj with ⟨f, _, hm⟩
    rcases (planned_vid_loop_mem _ _ _ _ _ _ _ _ _).mp hm with ⟨k, _, _, rfl⟩
    exact ⟨rfl, rfl⟩

theorem planned_all_fields (ext : Ext) (cfg : Config) (imgSrcs vidSrcs : List Path)
    (j : MediaJob) (hj : j ∈ planned_all ext cfg imgSrcs vidSrcs) :
    job_src j ∈ imgSrcs ++ vidSrcs ∧ job_dry j = false := by
  rcases List.mem_append.mp hj with h | h
  · rcases List.mem_flatMap.mp h with ⟨s, hs, hm⟩
    obtain ⟨h1, h2⟩ := planned_targets_fields ext cfg s false false j hm
    exact ⟨h1 ▸ List.mem_append.mpr (Or.inl hs), h2⟩
  · rcases List.mem_flatMap.mp h with ⟨s, hs, hm⟩
    obtain ⟨h1, h2⟩ := planned_targets_fields ext cfg s true false j hm
    exact ⟨h1 ▸ List.mem_append.mpr (Or.inr hs), h2⟩

theorem needs_work_congr (ext : Ext) (fs fs2 : FS) (src dst : Path)
    (h1 : fsRead fs2 dst = fsRead fs dst)
    (h2 : fsRead fs2 (hash_path_for_dst dst) = fsRead fs (hash_path_for_dst dst))
    (h3 : fsRead fs2 src = fsRead fs src) :
    needs_work ext fs2 src dst = needs_work ext fs src dst := by
  unfold needs_work fsIsFile is_dirty hash_file
  rw [h1, h2, h3]

/-- The executed job list of the pipeline is the planner output filtered by
the staleness oracle. -/
theorem pipeline_jobs_eq (ext : Ext) (cfg : Config) (fs : FS)
    (imgSrcs vidSrcs : List Path) :
    (collect_jobs ext cfg fs false false imgSrcs).1 ++
      (collect_jobs ext cfg fs true false vidSrcs).1 =
      (planned_all ext cfg imgSrcs vidSrcs).filter (needsJ ext fs) := by
  rw [collect_jobs_fst, collect_jobs_fst]
  have himg : ∀ s : Path, (file_targets ext cfg fs s false false).1 =
      (planned_targets ext cfg s false false).filter (needsJ ext fs) := by
    intro s
    rw [file_targets_eq]
  have hvid : ∀ s : Path, (file_targets ext cfg fs s true false).1 =
      (planned_targets ext cfg s true false).filter (needsJ ext fs) := by
    intro s
    rw [file_targets_eq]
  simp only [himg, hvid]
  unfold planned_all
  rw [List.filter_append, filter_flatMap, filter_flatMap]

/-- After the pipeline runs (all transforms succeeding, write footprints
pairwise disjoint and disjoint from the sources), every planned artifact is
up to date. -/
theorem pipeline_all_fresh (ext : Ext) (cfg : Config) (fs : FS)
    (imgSrcs vidSrcs : List Path)
    (hres : ∀ c n, (ext.resize c n).isSome = true)
    (henc : ∀ c f r b m, (ext.encode c f r b m).isSome = true)
    (hpos : ∀ c, (ext.poster c).isSome = true)
    (hsrc : ∀ s ∈ imgSrcs ++ vidSrcs, (fsRead fs s).isSome = true)
    (hsep : ∀ s ∈ imgSrcs ++ vidSrcs, s ∉ writePaths (planned_all ext cfg imgSrcs vidSrcs))
    (hpw : (planned_all ext cfg imgSrcs vidSrcs).Pairwise
      (fun a b => (∀ q ∈ job_write_paths a, q ∉ job_read_paths b) ∧
        (∀ q ∈ job_write_paths b, q ∉ job_read_paths a))) :
    ∀ a ∈ planned_all ext cfg imgSrcs vidSrcs,
      needsJ ext (pipeline_fs ext cfg fs imgSrcs vidSrcs) a = false := by
  intro a ha
  have hjobs := pipeline_jobs_eq ext cfg fs imgSrcs vidSrcs
  set jobs1 := (planned_all ext cfg imgSrcs vidSrcs).filter (needsJ ext fs) with hjobs1
  have hfs' : pipeline_fs ext cfg fs imgSrcs vidSrcs = (exec_jobs ext false fs jobs1).1 := by
    unfold pipeline_fs
    rw [hjobs]
  have hdry1 : ∀ j ∈ jobs1, job_dry j = false := fun j hj =>
    (planned_all_fields ext cfg imgSrcs vidSrcs j (List.mem_filter.mp hj).1).2
  have hsrcs1 : ∀ j ∈ jobs1, (fsRead fs (job_src j)).isSome = true := fun j hj =>
    hsrc _ (planned_all_fields ext cfg imgSrcs vidSrcs j (List.mem_filter.mp hj).1).1
  have hsep1 : ∀ j ∈ jobs1, job_src j ∉ writePaths jobs1 := by
    intro j hj hmem
    exact hsep _ (planned_all_fields ext cfg imgSrcs vidSrcs j (List.mem_filter.mp hj).1).1
      (writePaths_filter_subset _ _ _ hmem)
  have hpw1 : jobs1.Pairwise (fun a b =>
      (∀ q ∈ job_write_paths a, q ∉ job_read_paths b) ∧
      (∀ q ∈ job_write_paths b, q ∉ job_read_paths a)) :=
    hpw.sublist (List.filter_sublist _)
  obtain ⟨hpres, hvals⟩ := exec_jobs_props ext fs jobs1 hdry1 hsrcs1 hres henc hpos hsep1 hpw1
  have hsrcpres : fsRead (exec_jobs ext false fs jobs1).1 (job_src a) = fsRead fs (job_src a) := by
    apply hpres
    intro hmem
    exact hsep _ (planned_all_fields ext cfg imgSrcs vidSrcs a ha).1
      (writePaths_filter_subset _ _ _ hmem)
  by_cases hn : needsJ ext fs a = true
  · have hmem1 : a ∈ jobs1 := List.mem_filter.mpr ⟨ha, hn⟩
    obtain ⟨hdst, hsc⟩ := hvals a hmem1
    obtain ⟨c, hc⟩ := Option.isSome_iff_exists.mp
      (hsrc _ (planned_all_fields ext cfg imgSrcs vidSrcs a ha).1)
    rw [hfs']
    unfold needsJ needs_work fsIsFile is_dirty hash_file
    rw [hdst, hsc, hsrcpres, hc]
    simp
  · rw [Bool.not_eq_true] at hn
    have hnotin : a ∉ jobs1 := fun hmem => by
      have hcontra := (List.mem_filter.mp hmem).2
      rw [hn] at hcontra
      exact Bool.false_ne_true hcontra
    have hsymm : Symmetric
        (fun a b : MediaJob => (∀ q ∈ job_write_paths a, q ∉ job_read_paths b) ∧
          (∀ q ∈ job_write_paths b, q ∉ job_read_paths a)) := by
      intro x y hxy
      exact ⟨hxy.2, hxy.1⟩
    have hapaths : ∀ q ∈ job_read_paths a, q ∉ writePaths jobs1 := by
      intro q hq hmem
      rcases List.mem_flatMap.mp hmem with ⟨b, hb, hqb⟩
      have hab : a ≠ b := fun he => hnotin (he ▸ hb)
      exact (hpw.forall hsymm ha (List.mem_filter.mp hb).1 hab).2 q hqb hq
    have h1 : fsRead (exec_jobs ext false fs jobs1).1 (job_dst a) = fsRead fs (job_dst a) :=
      hpres _ (hapaths _ (by simp [job_read_paths]))
    have h2 : fsRead (exec_jobs ext false fs jobs1).1 (hash_path_for_dst (job_dst a)) =
        fsRead fs (hash_path_for_dst (job_dst a)) :=
      hpres _ (hapaths _ (by simp [job_read_paths]))
    rw [hfs']
    unfold needsJ
    rw [needs_work_congr ext fs _ _ _ h1 h2 hsrcpres]
    exact hn

/-- A second planning pass over sources whose planned artifacts are all
fresh yields no jobs and skips everything. -/
theorem collect_jobs_all_fresh (ext : Ext) (cfg : Config) (fs2 : FS) (iv : Bool)
    (srcs : List Path)
    (h : ∀ s ∈ srcs, ∀ a ∈ planned_targets ext cfg s iv false, needsJ ext fs2 a = false) :
    collect_jobs ext cfg fs2 iv false srcs =
      ([], (srcs.flatMap (fun s => planned_targets ext cfg s iv false)).length) := by
  induction srcs with
  | nil => rfl
  | cons s rest ih =>
    have e1 : (planned_targets ext cfg s iv false).filter (needsJ ext fs2) = [] := by
      apply List.filter_eq_nil_iff.mpr
      intro a ha ht
      rw [h s (List.mem_cons_self _ _) a ha] at ht
      exact Bool.false_ne_true ht
    have e2 : (planned_targets ext cfg s iv false).filter
        (fun j => !(needsJ ext fs2 j)) = planned_targets ext cfg s iv false := by
      apply List.filter_eq_self.mpr
      intro a ha
      rw [h s (List.mem_cons_self _ _) a ha]
      rfl
    have hs : file_targets ext cfg fs2 s iv false =
        ([], (planned_targets ext cfg s iv false).length) := by
      rw [file_targets_eq, e1, e2]
    have hrest := ih (fun s' hs' => h s' (List.mem_cons_of_mem _ hs'))
    simp only [collect_jobs, hs, hrest]
    simp [List.flatMap_cons]

/-! ### Further helper lemmas for the claims -/

theorem exec_jobs_count_of_all_ok (ext : Ext) (g : Bool) (fs : FS)
    (jobs : List MediaJob) (h : all_ok ext g fs jobs = true) :
    (exec_jobs ext g fs jobs).2 = jobs.length := by
  induction jobs generalizing fs with
  | nil => rfl
  | cons j rest ih =>
    simp only [all_ok, Bool.and_eq_true] at h
    simp only [exec_jobs, h.1, if_true, List.length_cons]
    rw [ih _ h.2]
    omega

theorem convert_image_success_present (ext : Ext) (g : Bool) (fs : FS) (j : ImageJob)
    (hok : (convert_image ext g fs j).2 = true) (hdry : j.dry_run = false) :
    (fsRead (convert_image ext g fs j).1 j.dst).isSome = true ∧
    (fsRead (convert_image ext g fs j).1 (hash_path_for_dst j.dst)).isSome = true := by
  unfold convert_image at hok ⊢
  simp only [hdry, Bool.false_eq_true, if_false] at hok ⊢
  cases hc : fsRead (mkdir_for_dst fs j.dst g) j.src with
  | none => simp [hc] at hok
  | some c =>
    simp only [hc] at hok ⊢
    cases hout : ext.resize c j.size with
    | none => simp [hout] at hok
    | some out =>
      simp only [hout] at hok ⊢
      cases hw : write_hash ext (fsWrite (mkdir_for_dst fs j.dst g) j.dst out)
          j.src j.dst with
      | none => simp [hw] at hok
      | some fs3 =>
        simp only [hw]
        unfold write_hash at hw
        cases hc2 : fsRead (fsWrite (mkdir_for_dst fs j.dst g) j.dst out) j.src with
        | none =>
          rw [hc2] at hw
          exact absurd hw (by simp)
        | some c2 =>
          rw [hc2] at hw
          simp only [Option.map, Option.some_inj] at hw
          subst hw
          constructor
          · apply fsRead_isSome_fsWrite
            rw [fsRead_fsWrite_self]
            rfl
          · rw [fsRead_fsWrite_self]
            rfl

theorem convert_video_success_present (ext : Ext) (g : Bool) (fs : FS) (j : VideoJob)
    (hok : (convert_video ext g fs j).2 = true) (hdry : j.dry_run = false) :
    (fsRead (convert_video ext g fs j).1 j.dst).isSome = true ∧
    (fsRead (convert_video ext g fs j).1 (poster_path j.dst)).isSome = true ∧
    (fsRead (convert_video ext g fs j).1 (hash_path_for_dst j.dst)).isSome = true := by
  unfold convert_video at hok ⊢
  simp only [hdry, Bool.false_eq_true, if_false] at hok ⊢
  cases hc : fsRead (mkdir_for_dst fs j.dst g) j.src with
  | none => simp [hc] at hok
  | some c =>
    simp only [hc] at hok ⊢
    cases hout : ext.encode c j.format j.resolution j.bitrate
        (j.bitrate * j.cfg.VIDEO_VBR_MAX) with
    | none => simp [hout] at hok
    | some out =>
      simp only [hout] at hok ⊢
      by_cases hpd : fsIsFile (fsWrite (mkdir_for_dst fs j.dst g) j.dst out)
          (poster_path j.dst) = true
      · simp only [hpd, if_true] at hok ⊢
        cases hw : write_hash ext (fsWrite (mkdir_for_dst fs j.dst g) j.dst out)
            j.src j.dst with
        | none => simp [hw] at hok
        | some fs3 =>
          simp only [hw]
          unfold write_hash at hw
          cases hc2 : fsRead (fsWrite (mkdir_for_dst fs j.dst g) j.dst out) j.src with
          | none =>
            rw [hc2] at hw
            exact absurd hw (by simp)
          | some c2 =>
            rw [hc2] at hw
            simp only [Option.map, Option.some_inj] at hw
            subst hw
            refine ⟨?_, ?_, ?_⟩
            · apply fsRead_isSome_fsWrite
              rw [fsRead_fsWrite_self]
              rfl
            · apply fsRead_isSome_fsWrite
              unfold fsIsFile at hpd
              exact hpd
            · rw [fsRead_fsWrite_self]
              rfl
      · rw [Bool.not_eq_true] at hpd
        simp only [hpd, Bool.false_eq_true, if_false] at hok ⊢
        cases hpc : ext.poster out with
        | none => simp [hpc] at hok
        | some pc =>
          simp only [hpc] at hok ⊢
          cases hw : write_hash ext (fsWrite (fsWrite (mkdir_for_dst fs j.dst g)
              j.dst out) (poster_path j.dst) pc) j.src j.dst with
          | none => simp [hw] at hok
          | some fs4 =>
            simp only [hw]
            unfold write_hash at hw
            cases hc2 : fsRead (fsWrite (fsWrite (mkdir_for_dst fs j.dst g)
                j.dst out) (poster_path j.dst) pc) j.src with
            | none =>
              rw [hc2] at hw
              exact absurd hw (by simp)
            | some c2 =>
              rw [hc2] at hw
              simp only [Option.map, Option.some_inj] at hw
              subst hw
              refine ⟨?_, ?_, ?_⟩
              · apply fsRead_isSome_fsWrite
                apply fsRead_isSome_fsWrite
                rw [fsRead_fsWrite_self]
                rfl
              · apply fsRead_isSome_fsWrite
                rw [fsRead_fsWrite_self]
                rfl
              · rw [fsRead_fsWrite_self]
                rfl

theorem planned_img_loop_closed (cfg : Config) (src name ext0 : Path) (dry : Bool)
    (width : Nat) (rs : List Nat) :
    planned_img_loop cfg src name ext0 dry width rs =
      (rs.filter (fun r => decide (r ≤ width))).map
        (fun r => MediaJob.img
          ⟨src, artifact_dst cfg src (artifact_full name r ext0), r, dry⟩) := by
  induction rs with
  | nil => rfl
  | cons r rest ih =>
    by_cases hw : r > width
    · have hnle : ¬(r ≤ width) := Nat.not_le.mpr hw
      simp [planned_img_loop, hw, hnle, ih]
    · have hle : r ≤ width := Nat.le_of_not_lt hw
      simp [planned_img_loop, hw, hle, ih]

theorem splitWS_shape (t : Path) : ∃ w rs, splitWS t = w :: rs := by
  cases t with
  | nil => exact ⟨[], [], rfl⟩
  | cons c t' =>
    by_cases hc : c.isWhitespace = true
    · exact ⟨[], splitWS t', by simp [splitWS, hc]⟩
    · cases hsp : splitWS t' with
      | nil => exact ⟨[c], [], by simp [splitWS, hc, hsp]⟩
      | cons w rs => exact ⟨c :: w, rs, by simp [splitWS, hc, hsp]⟩

theorem splitWS_filter_word : ∀ (t : Path) (c : Char), c.isWhitespace = false →
    (splitWS (c :: t)).filter (fun w => !w.isEmpty) =
      (c :: t.takeWhile (fun d => !d.isWhitespace)) ::
        (splitWS (t.dropWhile (fun d => !d.isWhitespace))).filter
          (fun w => !w.isEmpty) := by
  intro t
  induction t with
  | nil =>
    intro c hc
    simp [splitWS, hc]
  | cons d t' ih =>
    intro c hc
    by_cases hd : d.isWhitespace = true
    · have h1 : splitWS (c :: d :: t') = [c] :: splitWS t' := by
        simp [splitWS, hd, hc]
      have h2 : (d :: t').takeWhile (fun x => !x.isWhitespace) = [] := by
        simp [List.takeWhile_cons, hd]
      have h3 : (d :: t').dropWhile (fun x => !x.isWhitespace) = d :: t' := by
        simp [List.dropWhile_cons, hd]
      have h4 : splitWS (d :: t') = [] :: splitWS t' := by
        simp [splitWS, hd]
      rw [h1, h2, h3, h4]
      simp [List.filter_cons]
    · rw [Bool.not_eq_true] at hd
      obtain ⟨w, rs, hsp⟩ := splitWS_shape t'
      have h1 : splitWS (d :: t') = (d :: w) :: rs := by
        simp [splitWS, hd, hsp]
      have h2 : splitWS (c :: d :: t') = (c :: d :: w) :: rs := by
        simp [splitWS, hc, hd, hsp]
      have ihd := ih d hd
      rw [h1, List.filter_cons_of_pos (by simp)] at ihd
      injection ihd with hhead htail
      injection hhead with _ hw2
      rw [h2, List.filter_cons_of_pos (by simp)]
      have htk : (d :: t').takeWhile (fun x => !x.isWhitespace) =
          d :: t'.takeWhile (fun x => !x.isWhitespace) := by
        simp [List.takeWhile_cons, hd]
      have hdr : (d :: t').dropWhile (fun x => !x.isWhitespace) =
          t'.dropWhile (fun x => !x.isWhitespace) := by
        simp [List.dropWhile_cons, hd]
      rw [htk, hdr, hw2, htail]

/-- With enough fuel, the fuel-driven splitter agrees with the whitespace-kept
split with the empty pieces dropped. -/
theorem wsplitF_eq (fuel : Nat) : ∀ l : Path, l.length ≤ fuel →
    wsplitF fuel l = (splitWS l).filter (fun w => !w.isEmpty) := by
  induction fuel with
  | zero =>
    intro l hl
    have : l = [] := List.eq_nil_of_length_eq_zero (Nat.le_zero.mp hl)
    subst this
    rfl
  | succ fuel ih =>
    intro l hl
    match l with
    | [] => rfl
    | c :: t =>
      by_cases hc : c.isWhitespace = true
      · have h1 : wsplitF (fuel + 1) (c :: t) = wsplitF fuel t := by
          rw [wsplitF, if_pos hc]
        have h2 : splitWS (c :: t) = [] :: splitWS t := by
          simp [splitWS, hc]
        rw [h1, h2, ih t (Nat.le_of_succ_le_succ hl)]
        simp [List.filter_cons]
      · rw [Bool.not_eq_true] at hc
        have h1 : wsplitF (fuel + 1) (c :: t) =
            (c :: t.takeWhile (fun d => !d.isWhitespace)) ::
              wsplitF fuel (t.dropWhile (fun d => !d.isWhitespace)) := by
          rw [wsplitF, if_neg (by simp [hc])]
        have hlen : (t.dropWhile (fun d => !d.isWhitespace)).length ≤ fuel :=
          Nat.le_trans (List.dropWhile_sublist _).length_le (Nat.le_of_succ_le_succ hl)
        rw [h1, splitWS_filter_word t c hc, ih _ hlen]

/-- Python's `name.split()` is the whitespace-kept split with the empty
pieces dropped: `sanitary_name` therefore collapses every whitespace run to
a single hyphen and trims the ends. -/
theorem wsplit_eq (l : Path) :
    wsplit l = (splitWS l).filter (fun w => !w.isEmpty) :=
  wsplitF_eq l.length l (Nat.le_refl _)

/-! ### Claim theorems -/

/-- C1: for every source file (readable, as `expose.py` otherwise raises
while hashing) and policy, `file_targets` returns exactly the planned
artifacts whose destination is absent, or whose sidecar record is absent, or
whose stored digest differs from the freshly computed digest of the source;
every other planned artifact is excluded and counted in the returned skipped
count. -/
theorem c1_collect_includes_iff_stale (ext : Ext) (cfg : Config) (fs : FS)
    (src : Path) (is_video dry : Bool)
    (hsrc : (fsRead fs src).isSome = true) :
    (file_targets ext cfg fs src is_video dry).1 =
      (planned_targets ext cfg src is_video dry).filter (needsJ ext fs) ∧
    (file_targets ext cfg fs src is_video dry).2 =
      ((planned_targets ext cfg src is_video dry).filter
        (fun j => !(needsJ ext fs j))).length ∧
    ∀ j ∈ planned_targets ext cfg src is_video dry,
      (j ∈ (file_targets ext cfg fs src is_video dry).1 ↔
        (fsRead fs (job_dst j) = none ∨
          fsRead fs (hash_path_for_dst (job_dst j)) = none ∨
          ∃ h, fsRead fs (hash_path_for_dst (job_dst j)) = some h ∧
            hash_file ext fs src ≠ some h)) := by
  refine ⟨by rw [file_targets_eq], by rw [file_targets_eq], ?_⟩
  intro j hj
  rw [file_targets_eq]
  simp only
  constructor
  · intro hm
    have hn := (List.mem_filter.mp hm).2
    unfold needsJ at hn
    rw [(planned_targets_fields ext cfg src is_video dry j hj).1] at hn
    exact (needs_work_iff ext fs src (job_dst j)).mp hn
  · intro hr
    refine List.mem_filter.mpr ⟨hj, ?_⟩
    unfold needsJ
    rw [(planned_targets_fields ext cfg src is_video dry j hj).1]
    exact (needs_work_iff ext fs src (job_dst j)).mpr hr

/-- Witness for C1 at a concrete source tree and policy. -/
theorem c1_collect_includes_iff_stale_witness :
    (file_targets extOk cfgEx fsEx srcA false false).1 =
      (planned_targets extOk cfgEx srcA false false).filter (needsJ extOk fsEx) ∧
    (file_targets extOk cfgEx fsEx srcA false false).2 =
      ((planned_targets extOk cfgEx srcA false false).filter
        (fun j => !(needsJ extOk fsEx j))).length ∧
    ∀ j ∈ planned_targets extOk cfgEx srcA false false,
      (j ∈ (file_targets extOk cfgEx fsEx srcA false false).1 ↔
        (fsRead fsEx (job_dst j) = none ∨
          fsRead fsEx (hash_path_for_dst (job_dst j)) = none ∨
          ∃ h, fsRead fsEx (hash_path_for_dst (job_dst j)) = some h ∧
            hash_file extOk fsEx srcA ≠ some h)) :=
  c1_collect_includes_iff_stale extOk cfgEx fsEx srcA false false (by decide)

/-- C3, counterexample: a state whose destination file is absent while the
sidecar record exists and equals the fresh digest of the unmodified source.
The staleness predicate of the code returns true there, where the claim's
final clause says it returns false. -/
theorem c3_counterexample :
    fsRead fsSidecarOnly (hash_path_for_dst dstEx) = some (("P").toList) ∧
    hash_file extOk fsSidecarOnly srcA = some (("P").toList) ∧
    fsRead fsSidecarOnly dstEx = none ∧
    needs_work extOk fsSidecarOnly srcA dstEx = true := by
  decide

/-- C3 (amended): the staleness predicate is true exactly when the
destination is absent, or the sidecar is absent, or the stored digest
differs from the fresh digest; it is false exactly when the destination
exists AND the sidecar exists and matches the fresh digest of the source
(the hypothesis keeps to states where `is_dirty` does not raise). -/
theorem c3_isStale_amended (ext : Ext) (fs : FS) (src dst : Path)
    (hsrc : (fsRead fs src).isSome = true) :
    (needs_work ext fs src dst = true ↔
      (fsRead fs dst = none ∨ fsRead fs (hash_path_for_dst dst) = none ∨
        ∃ h, fsRead fs (hash_path_for_dst dst) = some h ∧
          hash_file ext fs src ≠ some h)) ∧
    (needs_work ext fs src dst = false ↔
      ((fsRead fs dst).isSome = true ∧
        ∃ h, fsRead fs (hash_path_for_dst dst) = some h ∧
          hash_file ext fs src = some h)) := by
  refine ⟨needs_work_iff ext fs src dst, ?_⟩
  unfold needs_work fsIsFile is_dirty
  cases hd : fsRead fs dst <;> cases hs : fsRead fs (hash_path_for_dst dst) <;>
    simp [hd, hs]

/-- Witness for C3 (amended) at a fully cached concrete state. -/
theorem c3_isStale_amended_witness :
    (needs_work extOk fsCached srcA dstEx = true ↔
      (fsRead fsCached dstEx = none ∨
        fsRead fsCached (hash_path_for_dst dstEx) = none ∨
        ∃ h, fsRead fsCached (hash_path_for_dst dstEx) = some h ∧
          hash_file extOk fsCached srcA ≠ some h)) ∧
    (needs_work extOk fsCached srcA dstEx = false ↔
      ((fsRead fsCached dstEx).isSome = true ∧
        ∃ h, fsRead fsCached (hash_path_for_dst dstEx) = some h ∧
          hash_file extOk fsCached srcA = some h)) :=
  c3_isStale_amended extOk fsCached srcA dstEx (by decide)

/-- C5: under a policy whose resolution and bitrate lists have equal length,
every video job planned by `file_targets` pairs the resolution at index k
with the bitrate at the same index k, for every emitted format. -/
theorem c5_positional_bitrate (ext : Ext) (cfg : Config) (fs : FS) (src : Path)
    (dry : Bool)
    (hlen : cfg.RESOLUTIONS.length = cfg.VIDEO_BITRATES.length) :
    ∀ v : VideoJob, MediaJob.vid v ∈ (file_targets ext cfg fs src true dry).1 →
      ∃ k, k < cfg.RESOLUTIONS.length ∧ k < cfg.VIDEO_BITRATES.length ∧
        cfg.RESOLUTIONS.getD k 0 = v.resolution ∧
        cfg.VIDEO_BITRATES.getD k 0 = v.bitrate := by
  intro v hv
  rw [file_targets_eq] at hv
  simp only at hv
  have hp := (List.mem_filter.mp hv).1
  unfold planned_targets at hp
  simp only [if_true] at hp
  rcases (planned_vid_fmts_mem _ _ _ _ _ _ _).mp hp with ⟨f, hf, hm⟩
  rcases (planned_vid_loop_mem _ _ _ _ _ _ _ _ _).mp hm with ⟨k, hk, hkw, he⟩
  have hv2 : v = ⟨cfg, src,
      artifact_dst cfg src (artifact_full (sanitary_name_and_ext src).1
        (cfg.RESOLUTIONS.getD k 0) (VIDEO_FMT_EXTS f)),
      f, cfg.RESOLUTIONS.getD k 0, cfg.VIDEO_BITRATES.getD (0 + k) 0, dry⟩ := by
    injection he
  subst hv2
  exact ⟨k, hk, hlen ▸ hk, rfl, by simp⟩

/-- Witness for C5 at a concrete video source and policy. -/
theorem c5_positional_bitrate_witness :
    ∃ k, k < cfgEx.RESOLUTIONS.length ∧ k < cfgEx.VIDEO_BITRATES.length ∧
      cfgEx.RESOLUTIONS.getD k 0 = vjEx.resolution ∧
      cfgEx.VIDEO_BITRATES.getD k 0 = vjEx.bitrate :=
  c5_positional_bitrate extOk cfgEx fsEx srcV false (by decide) vjEx (by decide)

/-- C4, counterexample: a 1000x2000 portrait source with resolution list
`[1500]`.  1500 does not exceed the longer side (2000), so the claim demands
a planned artifact, but the code compares against the width (1000) and plans
nothing. -/
theorem c4_counterexample :
    (extPortrait.dims srcA).1 = 1000 ∧ (extPortrait.dims srcA).2 = 2000 ∧
    (1500 : Nat) ∈ cfgPortrait.RESOLUTIONS ∧
    1500 ≤ max (extPortrait.dims srcA).1 (extPortrait.dims srcA).2 ∧
    planned_targets extPortrait cfgPortrait srcA false false = [] ∧
    file_targets extPortrait cfgPortrait fsEx srcA false false = ([], 0) := by
  decide

/-- C4 (amended): artifacts are planned exactly for the policy resolutions
that do not exceed the source WIDTH — for an image source (not its longer
side) as well as for a video source; larger resolutions are skipped, never
clamped, so no artifact is planned above the width. -/
theorem c4_no_upscale_amended (ext : Ext) (cfg : Config) (src : Path) (dry : Bool) :
    (planned_targets ext cfg src false dry =
      (cfg.RESOLUTIONS.filter (fun r => decide (r ≤ (ext.dims src).1))).map
        (fun r => MediaJob.img ⟨src,
          artifact_dst cfg src (artifact_full (sanitary_name_and_ext src).1 r
            ((sanitary_name_and_ext src).2)), r, dry⟩)) ∧
    (∀ v : VideoJob, MediaJob.vid v ∈ planned_targets ext cfg src true dry →
      v.resolution ≤ (ext.dims src).1 ∧ v.resolution ∈ cfg.RESOLUTIONS) ∧
    (∀ f ∈ cfg.VIDEO_FORMATS, ∀ k, k < cfg.RESOLUTIONS.length →
      cfg.RESOLUTIONS.getD k 0 ≤ (ext.dims src).1 →
      MediaJob.vid ⟨cfg, src,
        artifact_dst cfg src (artifact_full (sanitary_name_and_ext src).1
          (cfg.RESOLUTIONS.getD k 0) (VIDEO_FMT_EXTS f)),
        f, cfg.RESOLUTIONS.getD k 0, cfg.VIDEO_BITRATES.getD k 0, dry⟩ ∈
        planned_targets ext cfg src true dry) := by
  refine ⟨?_, ?_, ?_⟩
  · unfold planned_targets
    simp only [Bool.false_eq_true, if_false]
    exact planned_img_loop_closed cfg src _ _ dry _ cfg.RESOLUTIONS
  · intro v hv
    unfold planned_targets at hv
    simp only [if_true] at hv
    rcases (planned_vid_fmts_mem _ _ _ _ _ _ _).mp hv with ⟨f, hf, hm⟩
    rcases (planned_vid_loop_mem _ _ _ _ _ _ _ _ _).mp hm with ⟨k, hk, hkw, he⟩
    have hv2 : v = ⟨cfg, src,
        artifact_dst cfg src (artifact_full (sanitary_name_and_ext src).1
          (cfg.RESOLUTIONS.getD k 0) (VIDEO_FMT_EXTS f)),
        f, cfg.RESOLUTIONS.getD k 0, cfg.VIDEO_BITRATES.getD (0 + k) 0, dry⟩ := by
      injection he
    subst hv2
    refine ⟨Nat.le_of_not_lt hkw, ?_⟩
    have : cfg.RESOLUTIONS.getD k 0 = cfg.RESOLUTIONS[k] := List.getD_eq_getElem _ _ hk
    rw [this]
    exact List.getElem_mem hk
  · intro f hf k hk hkw
    unfold planned_targets
    simp only [if_true]
    apply (planned_vid_fmts_mem _ _ _ _ _ _ _).mpr
    refine ⟨f, hf, ?_⟩
    apply (planned_vid_loop_mem _ _ _ _ _ _ _ _ _).mpr
    exact ⟨k, hk, fun hgt => absurd (Nat.le_of_not_lt fun h2 => absurd hkw (Nat.not_le.mpr h2)) (Nat.not_le.mpr hgt), by simp⟩

/-- Witness for C4 (amended) at a concrete source and policy. -/
theorem c4_no_upscale_amended_witness :
    planned_targets extOk cfgEx srcA false false =
      (cfgEx.RESOLUTIONS.filter (fun r => decide (r ≤ (extOk.dims srcA).1))).map
        (fun r => MediaJob.img ⟨srcA,
          artifact_dst cfgEx srcA (artifact_full (sanitary_name_and_ext srcA).1 r
            ((sanitary_name_and_ext srcA).2)), r, false⟩) ∧
    MediaJob.vid ⟨cfgEx, srcV,
      artifact_dst cfgEx srcV (artifact_full (sanitary_name_and_ext srcV).1
        (cfgEx.RESOLUTIONS.getD 0 0) (VIDEO_FMT_EXTS .h264)),
      .h264, cfgEx.RESOLUTIONS.getD 0 0, cfgEx.VIDEO_BITRATES.getD 0 0, false⟩ ∈
      planned_targets extOk cfgEx srcV true false :=
  ⟨(c4_no_upscale_amended extOk cfgEx srcA false).1,
    (c4_no_upscale_amended extOk cfgEx srcV false).2.2 .h264 (by decide) 0
      (by decide) (by decide)⟩

/-- C9: the sanitized name is the basename with whitespace runs collapsed to
single hyphens and the extension removed (`"002 some file.jpg"` maps to
`"002-some-file"`), and each emitted job's destination is the deterministic
function of source, resolution and format that embeds the resolution — for
video the resolution, never the bitrate — into the file name. -/
theorem c9_destination_paths (ext : Ext) (cfg : Config) (fs : FS) (src : Path)
    (dry : Bool) :
    sanitary_name (("002 some file.jpg").toList) = ("002-some-file").toList ∧
    sanitary_name src = List.intercalate ['-']
      ((splitWS (splitextP (basenameCh src)).1).filter (fun w => !w.isEmpty)) ∧
    (∀ ij : ImageJob, MediaJob.img ij ∈ (file_targets ext cfg fs src false dry).1 →
      ij.dst = artifact_dst cfg src (artifact_full (sanitary_name src) ij.size
        ((sanitary_name_and_ext src).2))) ∧
    (∀ vj : VideoJob, MediaJob.vid vj ∈ (file_targets ext cfg fs src true dry).1 →
      vj.dst = artifact_dst cfg src (artifact_full (sanitary_name src) vj.resolution
        (VIDEO_FMT_EXTS vj.format))) := by
  refine ⟨by decide, ?_, ?_, ?_⟩
  · unfold sanitary_name sanitary_name_and_ext
    simp only
    rw [wsplit_eq]
  · intro ij hij
    rw [file_targets_eq] at hij
    simp only at hij
    have hp := (List.mem_filter.mp hij).1
    unfold planned_targets at hp
    simp only [Bool.false_eq_true, if_false] at hp
    rcases (planned_img_loop_mem _ _ _ _ _ _ _ _).mp hp with ⟨r, _, _, he⟩
    have hij2 : ij = ⟨src,
        artifact_dst cfg src (artifact_full (sanitary_name_and_ext src).1 r
          ((sanitary_name_and_ext src).2)), r, dry⟩ := by
      injection he
    rw [hij2]
    simp only [sanitary_name]
  · intro vj hvj
    rw [file_targets_eq] at hvj
    simp only at hvj
    have hp := (List.mem_filter.mp hvj).1
    unfold planned_targets at hp
    simp only [if_true] at hp
    rcases (planned_vid_fmts_mem _ _ _ _ _ _ _).mp hp with ⟨f, _, hm⟩
    rcases (planned_vid_loop_mem _ _ _ _ _ _ _ _ _).mp hm with ⟨k, _, _, he⟩
    have hvj2 : vj = ⟨cfg, src,
        artifact_dst cfg src (artifact_full (sanitary_name_and_ext src).1
          (cfg.RESOLUTIONS.getD k 0) (VIDEO_FMT_EXTS f)),
        f, cfg.RESOLUTIONS.getD k 0, cfg.VIDEO_BITRATES.getD (0 + k) 0, dry⟩ := by
      injection he
    rw [hvj2]
    simp only [sanitary_name]

/-- Witness for C9 at concrete jobs of both kinds. -/
theorem c9_destination_paths_witness :
    sanitary_name (("002 some file.jpg").toList) = ("002-some-file").toList ∧
    ijEx.dst = artifact_dst cfgEx srcA (artifact_full (sanitary_name srcA)
      ijEx.size ((sanitary_name_and_ext srcA).2)) ∧
    vjEx.dst = artifact_dst cfgEx srcV (artifact_full (sanitary_name srcV)
      vjEx.resolution (VIDEO_FMT_EXTS vjEx.format)) :=
  ⟨(c9_destination_paths extOk cfgEx fsEx srcA false).1,
    (c9_destination_paths extOk cfgEx fsEx srcA false).2.2.1 ijEx (by decide),
    (c9_destination_paths extOk cfgEx fsEx srcV false).2.2.2 vjEx (by decide)⟩

/-- C10: name sanitization is not injective: the two distinct sources
`"/s/a b.jpg"` and `"/s/a-b.jpg"` share the sanitized name, hence the same
output directory, artifact destination paths and sidecar paths, so their
planned artifacts denote the same unit of work and overwrite each other. -/
theorem c10_sanitization_collision :
    srcA ≠ srcB ∧
    sanitary_name srcA = sanitary_name srcB ∧
    target_dir cfgEx srcA = target_dir cfgEx srcB ∧
    (planned_targets extOk cfgEx srcA false false).map job_dst =
      (planned_targets extOk cfgEx srcB false false).map job_dst ∧
    (planned_targets extOk cfgEx srcA false false).map
        (fun j => hash_path_for_dst (job_dst j)) =
      (planned_targets extOk cfgEx srcB false false).map
        (fun j => hash_path_for_dst (job_dst j)) ∧
    (planned_targets extOk cfgEx srcA false false).length = 1 := by
  decide

/-- C2: the sidecar fingerprint of a job's destination is left exactly as it
was whenever the conversion aborts (a failing external call) and whenever the
job is a dry run; and a live conversion that returns normally has produced
the destination (for video: and its poster frame) and a sidecar record —
the fingerprint is committed only at the very end of the successful path. -/
theorem c2_fingerprint_after_success (ext : Ext) (g : Bool) (fs : FS)
    (ij : ImageJob) (vj : VideoJob) :
    ((convert_image ext g fs ij).2 = false →
      fsRead (convert_image ext g fs ij).1 (hash_path_for_dst ij.dst) =
        fsRead fs (hash_path_for_dst ij.dst)) ∧
    (ij.dry_run = true →
      fsRead (convert_image ext g fs ij).1 (hash_path_for_dst ij.dst) =
        fsRead fs (hash_path_for_dst ij.dst)) ∧
    ((convert_video ext g fs vj).2 = false →
      fsRead (convert_video ext g fs vj).1 (hash_path_for_dst vj.dst) =
        fsRead fs (hash_path_for_dst vj.dst)) ∧
    (vj.dry_run = true →
      fsRead (convert_video ext g fs vj).1 (hash_path_for_dst vj.dst) =
        fsRead fs (hash_path_for_dst vj.dst)) ∧
    ((convert_image ext g fs ij).2 = true → ij.dry_run = false →
      (fsRead (convert_image ext g fs ij).1 ij.dst).isSome = true ∧
      (fsRead (convert_image ext g fs ij).1 (hash_path_for_dst ij.dst)).isSome = true) ∧
    ((convert_video ext g fs vj).2 = true → vj.dry_run = false →
      (fsRead (convert_video ext g fs vj).1 vj.dst).isSome = true ∧
      (fsRead (convert_video ext g fs vj).1 (poster_path vj.dst)).isSome = true ∧
      (fsRead (convert_video ext g fs vj).1 (hash_path_for_dst vj.dst)).isSome = true) := by
  refine ⟨?_, ?_, ?_, ?_, ?_, ?_⟩
  · exact convert_image_fail_sidecar ext g fs ij
  · intro h
    rw [convert_image_dry ext g fs ij h]
    exact fsRead_mkdir_for_dst fs ij.dst g _
  · exact convert_video_fail_sidecar ext g fs vj
  · intro h
    rw [convert_video_dry ext g fs vj h]
    exact fsRead_mkdir_for_dst fs vj.dst g _
  · exact convert_image_success_present ext g fs ij
  · exact convert_video_success_present ext g fs vj

/-- Witness for C2: a failing transform leaves the (absent) sidecar absent,
and a successful live job of either kind leaves destination, poster and
sidecar present. -/
theorem c2_fingerprint_after_success_witness :
    fsRead (convert_image extFail false fsEx ijEx).1 (hash_path_for_dst ijEx.dst) =
      fsRead fsEx (hash_path_for_dst ijEx.dst) ∧
    ((fsRead (convert_image extOk false fsEx ijEx).1 ijEx.dst).isSome = true ∧
      (fsRead (convert_image extOk false fsEx ijEx).1
        (hash_path_for_dst ijEx.dst)).isSome = true) ∧
    ((fsRead (convert_video extOk false fsEx vjEx).1 vjEx.dst).isSome = true ∧
      (fsRead (convert_video extOk false fsEx vjEx).1
        (poster_path vjEx.dst)).isSome = true ∧
      (fsRead (convert_video extOk false fsEx vjEx).1
        (hash_path_for_dst vjEx.dst)).isSome = true) :=
  ⟨(c2_fingerprint_after_success extFail false fsEx ijEx vjEx).1 (by decide),
    (c2_fingerprint_after_success extOk false fsEx ijEx vjEx).2.2.2.2.1
      (by decide) (by decide),
    (c2_fingerprint_after_success extOk false fsEx ijEx vjEx).2.2.2.2.2
      (by decide) (by decide)⟩

/-- C6, counterexample: two distinct, unchanged image sources whose
sanitized names collide.  Every transform of the first full pipeline run
succeeds, the source tree is untouched, and yet the second planning pass
still produces one job (their shared sidecar can only match one source, so
the pipeline never reaches a fixed point). -/
theorem c6_counterexample :
    srcA ≠ srcB ∧
    all_ok extOk false fsEx
      ((collect_jobs extOk cfgEx fsEx false false [srcA, srcB]).1 ++
        (collect_jobs extOk cfgEx fsEx true false []).1) = true ∧
    fsRead fsTwice srcA = fsRead fsEx srcA ∧
    fsRead fsTwice srcB = fsRead fsEx srcB ∧
    (collect_jobs extOk cfgEx fsTwice false false [srcA, srcB]).1.length = 1 := by
  decide

/-- C6 (amended): running the plan, filter and execute pipeline twice over an
unchanged source tree yields zero executed jobs on the second run — every
artifact produced and fingerprinted by the first run is classified as up to
date and counted as skipped — provided all transforms succeed, no planned
artifact writes the destination or sidecar path of another (poster frames
may be shared across formats, as the code intends), and no write path
touches a source path; in particular distinct sources must have distinct
sanitized names. -/
theorem c6_idempotence_amended (ext : Ext) (cfg : Config) (fs : FS)
    (imgSrcs vidSrcs : List Path)
    (hres : ∀ c n, (ext.resize c n).isSome = true)
    (henc : ∀ c f r b m, (ext.encode c f r b m).isSome = true)
    (hpos : ∀ c, (ext.poster c).isSome = true)
    (hsrc : ∀ s ∈ imgSrcs ++ vidSrcs, (fsRead fs s).isSome = true)
    (hsep : ∀ s ∈ imgSrcs ++ vidSrcs,
      s ∉ writePaths (planned_all ext cfg imgSrcs vidSrcs))
    (hpw : (planned_all ext cfg imgSrcs vidSrcs).Pairwise
      (fun a b => (∀ q ∈ job_write_paths a, q ∉ job_read_paths b) ∧
        (∀ q ∈ job_write_paths b, q ∉ job_read_paths a))) :
    collect_jobs ext cfg (pipeline_fs ext cfg fs imgSrcs vidSrcs) false false imgSrcs =
      ([], (imgSrcs.flatMap (fun s => planned_targets ext cfg s false false)).length) ∧
    collect_jobs ext cfg (pipeline_fs ext cfg fs imgSrcs vidSrcs) true false vidSrcs =
      ([], (vidSrcs.flatMap (fun s => planned_targets ext cfg s true false)).length) := by
  have hfresh := pipeline_all_fresh ext cfg fs imgSrcs vidSrcs hres henc hpos hsrc hsep hpw
  constructor
  · apply collect_jobs_all_fresh
    intro s hs a ha
    apply hfresh
    unfold planned_all
    exact List.mem_append.mpr (Or.inl (List.mem_flatMap.mpr ⟨s, hs, ha⟩))
  · apply collect_jobs_all_fresh
    intro s hs a ha
    apply hfresh
    unfold planned_all
    exact List.mem_append.mpr (Or.inr (List.mem_flatMap.mpr ⟨s, hs, ha⟩))

/-- Witness for C6 (amended) over one image source and one video source,
under the two-format policy whose h264 and webm jobs share a poster path:
the hypotheses hold there and the second run plans nothing. -/
theorem c6_idempotence_amended_witness :
    collect_jobs extOk cfgEx2 (pipeline_fs extOk cfgEx2 fsEx [srcA] [srcV]) false false [srcA] =
      ([], ([srcA].flatMap (fun s => planned_targets extOk cfgEx2 s false false)).length) ∧
    collect_jobs extOk cfgEx2 (pipeline_fs extOk cfgEx2 fsEx [srcA] [srcV]) true false [srcV] =
      ([], ([srcV].flatMap (fun s => planned_targets extOk cfgEx2 s true false)).length) :=
  c6_idempotence_amended extOk cfgEx2 fsEx [srcA] [srcV]
    (fun _ _ => rfl) (fun _ _ _ _ _ => rfl) (fun _ => rfl)
    (by decide) (by decide) (by decide)

/-- C7, counterexample: one submitted job whose external transform fails.
The wrapper never reaches its `queue.put(True)`, so only zero completion
signals are emitted against one submitted, and the drain loop of `run_jobs`
does not return — the claim's "one signal per job ... including when a
job's external transform fails" is false on the code. -/
theorem c7_counterexample :
    (convert_image extFail false fsEx ijEx).2 = false ∧
    (run_jobs extFail false fsEx [jobFailEx]).submitted = 1 ∧
    (run_jobs extFail false fsEx [jobFailEx]).emitted = 0 ∧
    run_jobs_returns (run_jobs extFail false fsEx [jobFailEx]) = false := by
  decide

/-- C7 (amended): when every submitted job's conversion returns normally,
exactly one completion signal per job is drained and `run_jobs` returns;
an empty job list returns immediately, constructing no worker pool and
reporting no progress.  (A failing transform emits no signal, so the drain
loop then never finishes — see the counterexample.) -/
theorem c7_run_jobs_amended (ext : Ext) (g : Bool) (fs : FS)
    (jobs : List MediaJob) (h : all_ok ext g fs jobs = true) :
    (run_jobs ext g fs jobs).emitted = (run_jobs ext g fs jobs).submitted ∧
    run_jobs_returns (run_jobs ext g fs jobs) = true ∧
    run_jobs ext g fs ([] : List MediaJob) = ⟨false, 0, 0, fs⟩ := by
  cases jobs with
  | nil => exact ⟨rfl, rfl, rfl⟩
  | cons j rest =>
    have hcount := exec_jobs_count_of_all_ok ext g fs (j :: rest) h
    refine ⟨?_, ?_, rfl⟩
    · simp only [run_jobs, hcount]
    · simp only [run_jobs_returns, run_jobs, hcount]
      simp

/-- Witness for C7 (amended) on a concrete job list whose transforms all
succeed. -/
theorem c7_run_jobs_amended_witness :
    (run_jobs extOk false fsEx [MediaJob.img ijEx]).emitted =
      (run_jobs extOk false fsEx [MediaJob.img ijEx]).submitted ∧
    run_jobs_returns (run_jobs extOk false fsEx [MediaJob.img ijEx]) = true ∧
    run_jobs extOk false fsEx ([] : List MediaJob) = ⟨false, 0, 0, fsEx⟩ :=
  c7_run_jobs_amended extOk false fsEx [MediaJob.img ijEx] (by decide)

/-- C8: a dry-run job of either kind performs no filesystem mutation at all —
no directory creation, no transform output, no fingerprint — returning the
filesystem unchanged: `convert_image`/`convert_video` only log.  The
module-global `dry_run` flag read by `mkdir_for_dst` is set here, as it is
in every run of `expose.py` that creates dry-run jobs (both come from the
same `--dry-run` argument).  The external collaborators `ext` are
universally quantified and absent from the result, so no transform is
invoked. -/
theorem c8_dry_run_no_mutation (ext : Ext) (fs : FS) (ij : ImageJob)
    (vj : VideoJob) (hi : ij.dry_run = true) (hv : vj.dry_run = true) :
    convert_image ext true fs ij = (fs, true) ∧
    convert_video ext true fs vj = (fs, true) := by
  constructor
  · rw [convert_image_dry ext true fs ij hi]
    simp [mkdir_for_dst]
  · rw [convert_video_dry ext true fs vj hv]
    simp [mkdir_for_dst]

/-- Witness for C8 at concrete dry-run jobs. -/
theorem c8_dry_run_no_mutation_witness :
    convert_image extOk true fsEx ijDry = (fsEx, true) ∧
    convert_video extOk true fsEx vjDry = (fsEx, true) :=
  c8_dry_run_no_mutation extOk fsEx ijDry vjDry (by decide) (by decide)

end Expose
